import Mathlib

/-!
Verification development for the jellyfish orchestration layer.

Shallow embedding of the source modules:
  * agent invoker (src/src/agent.ts): retry ladder, crash classification,
    session persistence on success and failure paths;
  * session store (src/src/cron.ts, second half): loadSession, saveSession,
    clearSession over a modelled per-chat file system;
  * job supervisor (src/src/format.ts, second half): appendLimited, updateJob,
    killJob, the exit handler, and the jobs-file decoder loadJobs;
  * permission broker (src/unnamed/part_009): pendingRequests table,
    createCanUseTool registration/timeout, handlePermissionCallback.

JavaScript strings are modelled as List Char.  Machine I/O (Bun.file,
Bun.write, process.kill, setTimeout) is modelled by explicit state passing;
the external agent engine and the Telegram API are modelled as parameters
(event lists, delivery traces).
-/

namespace Jellyfish

/-- JavaScript strings are modelled as lists of characters. -/
abbrev Str := List Char

/-- The characters treated as whitespace by the JavaScript trim method
(space, tab, line feed, carriage return, vertical tab, form feed, nbsp). -/
def isJsWhitespaceChar (c : Char) : Bool :=
  c == ' ' || c == '\t' || c == '\n' || c == '\r' ||
  c == Char.ofNat 11 || c == Char.ofNat 12 || c == Char.ofNat 160

/-- Model of the JavaScript trim method: strip whitespace at both ends. -/
def jsTrim (s : Str) : Str :=
  ((s.dropWhile isJsWhitespaceChar).reverse.dropWhile isJsWhitespaceChar).reverse

/-- Model of the JavaScript includes method on strings: the needle occurs
as a contiguous substring of the haystack. -/
def strIncludes (needle : Str) : Str → Bool
  | [] => needle.isEmpty
  | c :: rest => needle.isPrefixOf (c :: rest) || strIncludes needle rest

-- Session store data model (cron.ts lines 132-143).

/-- SessionRole from the source: system, user or assistant. -/
inductive SessionRole
  | system
  | user
  | assistant
deriving DecidableEq, Repr

/-- SessionMessage from the source: role, content, timestamp. -/
structure SessionMessage where
  role : SessionRole
  content : Str
  timestamp : Str
deriving DecidableEq, Repr

/-- SessionData from the source: optional sdkSessionId (the continuation
handle for the external engine) plus ordered message history. -/
structure SessionData where
  sdkSessionId : Option Str := none
  messages : List SessionMessage
deriving DecidableEq, Repr

-- Agent invoker (agent.ts).

/-- The substring tested by isClaudeProcessExitError (agent.ts line 85). -/
def processExitMarker : Str := "Claude Code process exited with code".toList

/-- The error thrown when every ladder attempt crashed (agent.ts line 288). -/
def repeatedExitMsg : Str :=
  "Claude Code process exited repeatedly. Please try again in a minute.".toList

/-- The generic fallback result returned when some attempt completed but
none produced non-whitespace text (agent.ts line 290). -/
def fallbackText : Str :=
  "I could not generate a response right now. Please try again.".toList

/-- isClaudeProcessExitError from agent.ts lines 83-86: the error message
contains the process-exit marker. -/
def isClaudeProcessExitError (message : Str) : Bool :=
  strIncludes processExitMarker message

/-- The SDK events consumed by executeQueryAttempt, after the shape checks
performed by extractTextDelta, extractSessionId and extractFinalText
(agent.ts lines 25-51): a streaming text delta, a system init event carrying
the session id, a final result event, or anything else. -/
inductive SDKEvent
  | streamTextDelta (text : Str)
  | systemInit (sessionId : Str)
  | resultSuccess (result : Str)
  | other
deriving DecidableEq, Repr

/-- extractTextDelta from agent.ts lines 25-37. -/
def extractTextDelta : SDKEvent → Str
  | .streamTextDelta t => t
  | _ => []

/-- extractSessionId from agent.ts lines 39-44. -/
def extractSessionId : SDKEvent → Option Str
  | .systemInit sid => some sid
  | _ => none

/-- extractFinalText from agent.ts lines 46-51. -/
def extractFinalText : SDKEvent → Option Str
  | .resultSuccess r => some r
  | _ => none

/-- The mutable locals of executeQueryAttempt (agent.ts lines 142-144). -/
structure ExecState where
  capturedSessionId : Option Str
  accumulatedText : Str
  finalResult : Option Str
deriving DecidableEq, Repr

/-- One iteration of the event loop in executeQueryAttempt (agent.ts lines
170-189).  Returns the updated state and, when a non-empty text delta
arrived, the accumulated text passed to onChunk.  The source wraps the
delivered text with telegramifyMarkdown, an external markup-conversion
library declared out of scope by the spec; the trace records the
accumulatedText argument fed to that conversion. -/
def execStep (s : ExecState) (e : SDKEvent) : ExecState × Option Str :=
  let s1 := match extractSessionId e with
    | some sid => { s with capturedSessionId := some sid }
    | none => s
  let delta := extractTextDelta e
  let (s2, delivered) :=
    if delta.isEmpty then (s1, none)
    else
      let acc := s1.accumulatedText ++ delta
      ({ s1 with accumulatedText := acc }, some acc)
  let s3 := match extractFinalText e with
    | some r => { s2 with finalResult := some r }
    | none => s2
  (s3, delivered)

/-- The full event loop of executeQueryAttempt: fold execStep over the
arriving events, collecting the partial-text deliveries in order. -/
def execEvents : ExecState → List SDKEvent → ExecState × List Str
  | s, [] => (s, [])
  | s, e :: es =>
      let (s', d) := execStep s e
      let (sf, ds) := execEvents s' es
      (sf, d.toList ++ ds)

/-- The environment behaviour of one engine invocation: the events the
iterator yields, and, when the backing process terminated abnormally,
the error message the iteration throws after those events. -/
structure AttemptRun where
  events : List SDKEvent
  crashMsg : Option Str
deriving DecidableEq, Repr

/-- Outcome of one executeQueryAttempt call: the thrown error message, or
the QueryExecutionResult reduced to the captured session id and the raw
text (finalResult when present, else accumulatedText; agent.ts line 264). -/
inductive AttemptOutcome
  | errored (msg : Str)
  | completed (sessionId : Option Str) (rawText : Str)
deriving DecidableEq, Repr

/-- executeQueryAttempt (agent.ts lines 136-194) against a given
environment run: consume the events from the initial state (resume id,
empty accumulator, no final result); if the run crashes the whole call
throws, otherwise the captured session id and raw text are returned.
The delivery trace is produced either way. -/
def executeQueryAttempt (resumeSessionId : Option Str) (run : AttemptRun) :
    List Str × AttemptOutcome :=
  let (st, deliveries) := execEvents ⟨resumeSessionId, [], none⟩ run.events
  match run.crashMsg with
  | some m => (deliveries, .errored m)
  | none => (deliveries, .completed st.capturedSessionId (st.finalResult.getD st.accumulatedText))

/-- QueryAttemptOptions from agent.ts lines 67-75.  The field
includeStreamingDeltas models the boolean named includePartialMessages in
the source; only label and resumeSessionId influence the modelled
semantics, the remaining capability flags are configuration data consumed
by the external engine. -/
structure QueryAttemptOptions where
  label : Str
  resumeSessionId : Option Str := none
  includeStreamingDeltas : Bool
  includeMemoryMcp : Bool
  includeBuiltinTools : Bool
  bypassPermissions : Bool
  model : Option Str := none
deriving DecidableEq, Repr

/-- The fixed attempt ladder built in runAgent (agent.ts lines 209-255):
six configurations, the first resuming the stored session id, the rest
fresh, progressively stripping capabilities. -/
def attempts (sdkSessionId : Option Str) (configuredModel : Option Str) :
    List QueryAttemptOptions :=
  [ { label := "resume/full".toList
      resumeSessionId := sdkSessionId
      includeStreamingDeltas := true
      includeMemoryMcp := true
      includeBuiltinTools := true
      bypassPermissions := true
      model := configuredModel },
    { label := "fresh/full".toList
      includeStreamingDeltas := true
      includeMemoryMcp := true
      includeBuiltinTools := true
      bypassPermissions := true
      model := configuredModel },
    { label := "fresh/full/default-model".toList
      includeStreamingDeltas := true
      includeMemoryMcp := true
      includeBuiltinTools := true
      bypassPermissions := true },
    { label := "fresh/no-mcp-no-partials".toList
      includeStreamingDeltas := false
      includeMemoryMcp := false
      includeBuiltinTools := true
      bypassPermissions := true },
    { label := "fresh/minimal".toList
      includeStreamingDeltas := false
      includeMemoryMcp := false
      includeBuiltinTools := false
      bypassPermissions := true },
    { label := "fresh/minimal/default-permissions".toList
      includeStreamingDeltas := false
      includeMemoryMcp := false
      includeBuiltinTools := false
      bypassPermissions := false } ]

/-- Result of a whole runAgent invocation: the returned text or the thrown
error message, the session record written by saveSession (none when no
save happened), and the concatenated partial-text delivery trace. -/
structure RunAgentResult where
  outcome : Except Str Str
  saved : Option SessionData
  deliveries : List Str
deriving Repr

/-- The outer catch block of runAgent (agent.ts lines 291-296): persist the
user turn with no assistant entry, keep the captured session id only when
the caught error is not classified as a process exit, and rethrow. -/
def throwResult (session : SessionData) (userMessage : SessionMessage)
    (e : Str) (captured : Option Str) (deliveries : List Str) : RunAgentResult :=
  { outcome := .error e
    saved := some { sdkSessionId := if isClaudeProcessExitError e then none else captured
                    messages := session.messages ++ [userMessage] }
    deliveries := deliveries }

/-- The attempt loop of runAgent (agent.ts lines 257-290) together with the
outer catch: iterate the ladder configurations against the environment
runs, carrying capturedSessionId, lastProcessExitError and
sawNonCrashFailure.  On a crash-classified attempt error advance; on any
other attempt error abort through the catch block; on whitespace-only text
record a soft failure and advance; on non-empty text persist user turn
plus assistant answer and return.  When the ladder is exhausted, throw the
repeated-exit error if there was a crash and no soft failure, else return
the fallback text (with no save). -/
def runLadder (tg : Str → Str) (session : SessionData) (userMessage : SessionMessage)
    (ts : Str) :
    List (QueryAttemptOptions × AttemptRun) → Option Str → Option Str → Bool → RunAgentResult
  | [], captured, lastExitError, sawSoft =>
      if lastExitError.isSome && !sawSoft then
        throwResult session userMessage repeatedExitMsg captured []
      else
        { outcome := .ok fallbackText, saved := none, deliveries := [] }
  | (cfg, run) :: rest, captured, lastExitError, sawSoft =>
      let (dels, outc) := executeQueryAttempt cfg.resumeSessionId run
      match outc with
      | .errored msg =>
          if isClaudeProcessExitError msg then
            let r := runLadder tg session userMessage ts rest captured (some msg) sawSoft
            { r with deliveries := dels ++ r.deliveries }
          else
            throwResult session userMessage msg captured dels
      | .completed sid rawText =>
          if (jsTrim rawText).isEmpty then
            let r := runLadder tg session userMessage ts rest sid lastExitError true
            { r with deliveries := dels ++ r.deliveries }
          else
            { outcome := .ok (tg rawText)
              saved := some { sdkSessionId := sid
                              messages := session.messages ++
                                [userMessage, ⟨.assistant, rawText, ts⟩] }
              deliveries := dels }

/-- runAgent (agent.ts lines 196-297) for one user turn: run the ladder over
the six fixed attempts zipped with the environment runs, starting from the
loaded session.  tg models the external telegramify-markdown conversion, ts
the assistant-message timestamp. -/
def runAgent (tg : Str → Str) (session : SessionData) (userMessage : SessionMessage)
    (ts : Str) (configuredModel : Option Str) (runs : List AttemptRun) : RunAgentResult :=
  runLadder tg session userMessage ts
    ((attempts session.sdkSessionId configuredModel).zip runs)
    session.sdkSessionId none false

/-- The environment run crashed with a crash-classified message. -/
def crashRun (r : AttemptRun) : Bool :=
  match r.crashMsg with
  | some m => isClaudeProcessExitError m
  | none => false

/-- The raw text an attempt produces when it completes: finalResult when
present, else the accumulated stream text (independent of the resume id). -/
def runRaw (r : AttemptRun) : Str :=
  let st := (execEvents ⟨none, [], none⟩ r.events).1
  st.finalResult.getD st.accumulatedText

/-- The environment run completes without crash but yields only whitespace:
the soft failure absorbed at agent.ts lines 267-271. -/
def softRun (r : AttemptRun) : Bool :=
  r.crashMsg.isNone && (jsTrim (runRaw r)).isEmpty

-- Permission broker (src/unnamed/part_009 lines 39-134).

/-- AUTO_ALLOW_TOOLS from the source: read-only tools approved without a
prompt. -/
def AUTO_ALLOW_TOOLS : List Str :=
  ["Read".toList, "Glob".toList, "Grep".toList, "WebFetch".toList]

/-- shouldAutoAllow from the source: listed tools and the internal
jellyfish-memory MCP namespace bypass the broker. -/
def shouldAutoAllow (toolName : Str) : Bool :=
  AUTO_ALLOW_TOOLS.contains toolName || ("mcp__jellyfish-memory__".toList).isPrefixOf toolName

/-- The forced-denial message used when the 2-minute expiry fires. -/
def timeoutMsg : Str := "Permission request timed out".toList

/-- The denial message used when the user presses Deny. -/
def userDeniedMsg : Str := "User denied permission".toList

/-- The stored part of a PendingRequest entry (the resolve callback and the
timer are modelled by the event trace). -/
structure PendingRequest where
  chatId : Int
  messageId : Int
deriving DecidableEq, Repr

/-- The pendingRequests map, keyed by correlation id, modelled as an
association list with unique keys (Map semantics). -/
abbrev BrokerState := List (Str × PendingRequest)

/-- Map.get on the pendingRequests table. -/
def lookupReq : BrokerState → Str → Option PendingRequest
  | [], _ => none
  | (k, e) :: rest, id => if k = id then some e else lookupReq rest id

/-- Map.delete on the pendingRequests table. -/
def removeReq : BrokerState → Str → BrokerState
  | [], _ => []
  | (k, e) :: rest, id => if k = id then removeReq rest id else (k, e) :: removeReq rest id

/-- Map.set on the pendingRequests table. -/
def setReq (s : BrokerState) (id : Str) (e : PendingRequest) : BrokerState :=
  (id, e) :: removeReq s id

/-- The decision passed to a pending request resolve callback:
behavior allow, or behavior deny with a message. -/
inductive Decision
  | allow
  | deny (message : Str)
deriving DecidableEq, Repr

/-- Observable effects of the broker: invoking a stored resolve callback,
editing the prompt message on timeout or decision, and the two
answerCallbackQuery notifications. -/
inductive BrokerAction
  | resolveReq (id : Str) (d : Decision)
  | editTimedOut (id : Str) (chat msg : Int)
  | editDecided (id : Str) (chat msg : Int) (allowed : Bool)
  | answerExpired
  | answerDecided (allowed : Bool)
deriving DecidableEq, Repr

/-- The events that drive the broker: registering a prompt for a fresh
correlation id (the promise executor in createCanUseTool), the 2-minute
timer firing, and a front-end callback arriving with its raw data string. -/
inductive BrokerEvent
  | register (id : Str) (chat msg : Int)
  | timerFire (id : Str)
  | callback (data : Str)
deriving DecidableEq, Repr

/-- The substring after the last colon of the callback data (the decision
in handlePermissionCallback). -/
def afterLastColon (data : Str) : Str :=
  (data.reverse.takeWhile (fun c => !(c == ':'))).reverse

/-- The substring before the last colon of the callback data (the
correlation id in handlePermissionCallback). -/
def beforeLastColon (data : Str) : Str :=
  data.take (data.length - (afterLastColon data).length - 1)

/-- One broker transition.  register: arm the timer and store the entry
(part_009 lines 87-100).  timerFire: delete the entry, edit the prompt to
the timed-out text and resolve with the forced denial (lines 88-92).
callback: ignore non-permission data; answer Request expired when no live
entry matches; otherwise cancel the timer, delete the entry, notify and
resolve with the user decision (lines 104-134). -/
def brokerStep (s : BrokerState) : BrokerEvent → BrokerState × List BrokerAction
  | .register id c m => (setReq s id ⟨c, m⟩, [])
  | .timerFire id =>
      match lookupReq s id with
      | some e =>
          (removeReq s id,
           [.editTimedOut id e.chatId e.messageId, .resolveReq id (.deny timeoutMsg)])
      | none => (s, [])
  | .callback data =>
      if ("perm:".toList).isPrefixOf data then
        let requestId := beforeLastColon data
        let decision := afterLastColon data
        match lookupReq s requestId with
        | none => (s, [.answerExpired])
        | some pending =>
            let s' := removeReq s requestId
            let allowed := decision = "allow".toList
            (s',
             [.editDecided requestId pending.chatId pending.messageId allowed,
              .answerDecided allowed,
              .resolveReq requestId (if allowed then .allow else .deny userDeniedMsg)])
      else (s, [])

/-- Environment validity of an event in a state: a timer can only fire
while its entry is live (setTimeout fires at most once and clearTimeout is
always called when the entry is removed by a decision), and correlation
ids derive from unique tool-use ids, so a registration only happens for an
id with no live entry. -/
def okEvent (s : BrokerState) : BrokerEvent → Prop
  | .register id _ _ => lookupReq s id = none
  | .timerFire id => lookupReq s id ≠ none
  | .callback _ => True

/-- A valid event sequence from a state: every event satisfies okEvent in
the state it is applied to. -/
inductive ValidSeq : BrokerState → List BrokerEvent → Prop
  | nil (s : BrokerState) : ValidSeq s []
  | cons {s : BrokerState} {e : BrokerEvent} {es : List BrokerEvent}
      (h : okEvent s e) (t : ValidSeq (brokerStep s e).1 es) : ValidSeq s (e :: es)

/-- Run the broker over an event sequence, collecting all actions. -/
def brokerRun : BrokerState → List BrokerEvent → BrokerState × List BrokerAction
  | s, [] => (s, [])
  | s, e :: es =>
      let (s', as) := brokerStep s e
      let (s'', as') := brokerRun s' es
      (s'', as ++ as')

/-- The action resolves the request with the given correlation id. -/
def isResolveFor (id : Str) : BrokerAction → Bool
  | .resolveReq i _ => i = id
  | _ => false

/-- The action resolves the given correlation id with the forced timeout
denial. -/
def isTimeoutResolveFor (id : Str) : BrokerAction → Bool
  | .resolveReq i (.deny m) => i = id && m = timeoutMsg
  | _ => false

/-- The action is the timed-out prompt edit for the given correlation id. -/
def isTimedOutEditFor (id : Str) : BrokerAction → Bool
  | .editTimedOut i _ _ => i = id
  | _ => false

/-- The event registers the given correlation id. -/
def isRegisterFor (id : Str) : BrokerEvent → Bool
  | .register i _ _ => i = id
  | _ => false

-- Job supervisor (src/src/format.ts lines 36-273).

/-- AgentName from the source. -/
inductive AgentName
  | codex
  | opencode
  | claude
deriving DecidableEq, Repr

/-- JobStatus from the source. -/
inductive JobStatus
  | running
  | done
  | failed
  | killed
deriving DecidableEq, Repr

/-- Job record from the source (format.ts lines 39-51). -/
structure Job where
  id : Str
  agent : AgentName
  task : Str
  workdir : Str
  chatId : Str
  status : JobStatus
  pid : Option Int := none
  startedAt : Str
  completedAt : Option Str := none
  exitCode : Option Int := none
  output : Str
deriving DecidableEq, Repr

/-- OUTPUT_LIMIT from format.ts line 55. -/
def OUTPUT_LIMIT : Nat := 3000

/-- appendLimited from format.ts lines 57-60: concatenate and keep only the
last limit characters (slice with a negative index keeps the tail). -/
def appendLimited (existing chunk : Str) (limit : Nat) : Str :=
  let merged := existing ++ chunk
  if merged.length ≤ limit then merged else merged.drop (merged.length - limit)

/-- The updater applied by appendOutput in spawnJob (format.ts lines
209-214). -/
def appendUpd (chunk : Str) (job : Job) : Job :=
  { job with output := appendLimited job.output chunk OUTPUT_LIMIT }

/-- The updater applied by killJob (format.ts lines 263-267). -/
def killUpd (ts : Str) (job : Job) : Job :=
  { job with status := .killed, completedAt := some ts }

/-- The updater applied by the exit handler in spawnJob (format.ts lines
218-224): done on a zero exit code, killed when a kill already marked the
record, otherwise failed. -/
def exitUpd (exitCode : Int) (ts : Str) (job : Job) : Job :=
  { job with
    status := if exitCode = 0 then .done else if job.status = .killed then .killed else .failed
    completedAt := some ts
    exitCode := some exitCode }

/-- updateJob from format.ts lines 122-133: replace the first record with
the matching id by its updated value, returning the updated record; null
when no record matches.  The surrounding write lock serialises these
read-modify-write steps, so one call is modelled as one atomic list
transformation. -/
def updateJobList (jobs : List Job) (id : Str) (f : Job → Job) : List Job × Option Job :=
  match jobs with
  | [] => ([], none)
  | j :: rest =>
      if j.id = id then (f j :: rest, some (f j))
      else
        let (rest', r) := updateJobList rest id f
        (j :: rest', r)

/-- jobs.find with matching id (format.ts line 243). -/
def findJob (jobs : List Job) (id : Str) : Option Job :=
  jobs.find? (fun j => j.id = id)

/-- Result of the process.kill call: normal delivery, or a thrown error
with an errno code (ESRCH when the process id no longer exists). -/
inductive SigOutcome
  | delivered
  | thrown (code : Str)
deriving DecidableEq, Repr

/-- killJob from format.ts lines 241-268: look up the job; null when
absent; unchanged when not running; otherwise signal the tracked pid
(tolerating ESRCH, propagating any other error) and mark the record killed
with a completion timestamp.  sig models process.kill for this call. -/
def killJob (sig : Int → SigOutcome) (ts : Str) (jobs : List Job) (id : Str) :
    Except Str (List Job × Option Job) :=
  match findJob jobs id with
  | none => .ok (jobs, none)
  | some target =>
      if target.status ≠ .running then .ok (jobs, some target)
      else
        match target.pid with
        | some p =>
            match sig p with
            | .delivered => .ok (updateJobList jobs id (killUpd ts))
            | .thrown code =>
                if code = "ESRCH".toList then .ok (updateJobList jobs id (killUpd ts))
                else .error code
        | none => .ok (updateJobList jobs id (killUpd ts))

/-- The baseJob record persisted by spawnJob before any output arrives
(format.ts lines 191-201). -/
def spawnBaseJob (id : Str) (agent : AgentName) (task workdir chatId : Str)
    (pid : Int) (ts : Str) : Job :=
  { id := id, agent := agent, task := task, workdir := workdir, chatId := chatId
    status := .running, pid := some pid, startedAt := ts, output := [] }

/-- The updaters that ever run against a job record after spawn: output
appends, the kill mark, and the exit-handler mark. -/
def IsJobUpdater (u : Job → Job) : Prop :=
  (∃ chunk, u = appendUpd chunk) ∨ (∃ ts, u = killUpd ts) ∨ (∃ ec ts, u = exitUpd ec ts)

/-- Fold a list of updaters over a job record. -/
def applyUpdates (j : Job) (us : List (Job → Job)) : Job :=
  us.foldl (fun a u => u a) j

/-- Number of updates that move the record out of the running status. -/
def leaveRunningCount : Job → List (Job → Job) → Nat
  | _, [] => 0
  | j, u :: us =>
      (if j.status = .running ∧ (u j).status ≠ .running then 1 else 0)
        + leaveRunningCount (u j) us

-- Persisted JSON layer shared by the session store and the job registry.

/-- JSON values at the level relevant to the stores. -/
inductive Json
  | null
  | bool (b : Bool)
  | num (n : Int)
  | str (s : Str)
  | arr (items : List Json)
  | obj (fields : List (Str × Json))
deriving Repr

/-- Property access on a parsed JSON object (first binding wins). -/
def lookupField (fields : List (Str × Json)) (k : Str) : Option Json :=
  (fields.find? (fun p => p.1 = k)).map (fun p => p.2)

/-- The role strings accepted by isSessionMessage (cron.ts line 157). -/
def roleOfStr (s : Str) : Option SessionRole :=
  if s = "system".toList then some .system
  else if s = "user".toList then some .user
  else if s = "assistant".toList then some .assistant
  else none

/-- The JSON string for a role, as produced by JSON.stringify. -/
def roleStr : SessionRole → Str
  | .system => "system".toList
  | .user => "user".toList
  | .assistant => "assistant".toList

/-- isSessionMessage from cron.ts lines 154-158, returning the typed record
when the check passes: an object with a recognised role string, a string
content and a string timestamp. -/
def decodeSessionMessage : Json → Option SessionMessage
  | .obj fields =>
      match lookupField fields "role".toList, lookupField fields "content".toList,
          lookupField fields "timestamp".toList with
      | some (.str r), some (.str c), some (.str t) =>
          match roleOfStr r with
          | some role => some ⟨role, c, t⟩
          | none => none
      | _, _, _ => none
  | _ => none

/-- JSON.stringify of one session message. -/
def encodeSessionMessage (m : SessionMessage) : Json :=
  .obj [("role".toList, .str (roleStr m.role)),
        ("content".toList, .str m.content),
        ("timestamp".toList, .str m.timestamp)]

/-- JSON.stringify of a SessionData record: undefined sdkSessionId is
omitted from the serialised object. -/
def encodeSessionData (d : SessionData) : Json :=
  .obj ((match d.sdkSessionId with
         | some sid => [("sdkSessionId".toList, .str sid)]
         | none => []) ++
        [("messages".toList, .arr (d.messages.map encodeSessionMessage))])

/-- The adaptation performed by loadSession on a parsed JSON value
(cron.ts lines 165-178): a legacy plain array is filtered; an object
yields its string sdkSessionId (when present) and its filtered messages
array; any other value yields an empty session. -/
def sessionFromJson (j : Json) : SessionData :=
  match j with
  | .arr items => { sdkSessionId := none, messages := items.filterMap decodeSessionMessage }
  | .obj fields =>
      { sdkSessionId :=
          match lookupField fields "sdkSessionId".toList with
          | some (.str s) => some s
          | _ => none
        messages :=
          match lookupField fields "messages".toList with
          | some (.arr items) => items.filterMap decodeSessionMessage
          | _ => [] }
  | _ => { sdkSessionId := none, messages := [] }

/-- Errors surfaced by the stores: a JSON.parse failure rethrown by the
catch block, or a filesystem error with an errno code. -/
inductive LoadErr
  | parseFailure
  | ioErr (code : Str)
deriving DecidableEq, Repr

/-- State of one stored file: missing, holding text that JSON.parse
rejects, holding a parsed JSON value, or inaccessible with an errno
code (an injected I/O fault of the environment). -/
inductive FileState
  | absent
  | invalidText
  | storedJson (j : Json)
  | faulty (code : Str)

/-- The per-chat session files, keyed by chat id. -/
abbrev Fs := Int → FileState

/-- loadSession from cron.ts lines 160-184 over the modelled file system:
a missing file (ENOENT) yields an empty session, unparseable text rethrows
the parse failure, a parsed value is adapted by sessionFromJson, and any
other I/O error propagates unless its code is ENOENT. -/
def loadSessionFs (fs : Fs) (chatId : Int) : Except LoadErr SessionData :=
  match fs chatId with
  | .absent => .ok { sdkSessionId := none, messages := [] }
  | .invalidText => .error .parseFailure
  | .storedJson j => .ok (sessionFromJson j)
  | .faulty code =>
      if code = "ENOENT".toList then .ok { sdkSessionId := none, messages := [] }
      else .error (.ioErr code)

/-- saveSession from cron.ts lines 186-190: write the serialised record to
the per-chat file. -/
def saveSessionFs (fs : Fs) (chatId : Int) (d : SessionData) : Fs :=
  fun c => if c = chatId then .storedJson (encodeSessionData d) else fs c

/-- clearSession from cron.ts lines 192-201: unlink the per-chat file,
tolerating ENOENT (missing file) and propagating any other error. -/
def clearSessionFs (fs : Fs) (chatId : Int) : Except LoadErr Fs :=
  match fs chatId with
  | .absent => .ok fs
  | .faulty code =>
      if code = "ENOENT".toList then .ok fs else .error (.ioErr code)
  | _ => .ok (fun c => if c = chatId then .absent else fs c)

/-- The agent value strings accepted by the loadJobs filter. -/
def agentOfStr (s : Str) : Option AgentName :=
  if s = "codex".toList then some .codex
  else if s = "opencode".toList then some .opencode
  else if s = "claude".toList then some .claude
  else none

/-- The status value strings accepted by the loadJobs filter. -/
def statusOfStr (s : Str) : Option JobStatus :=
  if s = "running".toList then some .running
  else if s = "done".toList then some .done
  else if s = "failed".toList then some .failed
  else if s = "killed".toList then some .killed
  else none

/-- The loadJobs record filter (format.ts lines 89-107), returning the
typed record when the required fields are present and well typed; the
optional pid, completedAt and exitCode fields are taken when well typed. -/
def decodeJob : Json → Option Job
  | .obj fields =>
      match lookupField fields "id".toList, lookupField fields "agent".toList,
          lookupField fields "task".toList, lookupField fields "workdir".toList,
          lookupField fields "chatId".toList, lookupField fields "status".toList,
          lookupField fields "startedAt".toList, lookupField fields "output".toList with
      | some (.str id), some (.str ag), some (.str tk), some (.str wd),
          some (.str cid), some (.str st), some (.str sa), some (.str out) =>
          match agentOfStr ag, statusOfStr st with
          | some agent, some status =>
              some { id := id, agent := agent, task := tk, workdir := wd, chatId := cid
                     status := status
                     pid := match lookupField fields "pid".toList with
                            | some (.num n) => some n
                            | _ => none
                     startedAt := sa
                     completedAt := match lookupField fields "completedAt".toList with
                                    | some (.str s) => some s
                                    | _ => none
                     exitCode := match lookupField fields "exitCode".toList with
                                 | some (.num n) => some n
                                 | _ => none
                     output := out }
          | _, _ => none
      | _, _, _, _, _, _, _, _ => none
  | _ => none

/-- loadJobs from format.ts lines 82-115 over the modelled jobs file: a
missing file yields the empty registry, unparseable text rethrows the
parse failure, a parsed non-array yields the empty registry, a parsed
array keeps the well-formed records, and any other I/O error propagates
unless its code is ENOENT. -/
def loadJobsFrom (f : FileState) : Except LoadErr (List Job) :=
  match f with
  | .absent => .ok []
  | .invalidText => .error .parseFailure
  | .storedJson j =>
      match j with
      | .arr items => .ok (items.filterMap decodeJob)
      | _ => .ok []
  | .faulty code =>
      if code = "ENOENT".toList then .ok [] else .error (.ioErr code)

-- Helper lemmas about the agent invoker.

lemma execEvents_acc_final (evs : List SDKEvent) :
    ∀ (r r' : Option Str) (a : Str) (f : Option Str),
    (execEvents ⟨r, a, f⟩ evs).1.accumulatedText
        = (execEvents ⟨r', a, f⟩ evs).1.accumulatedText ∧
    (execEvents ⟨r, a, f⟩ evs).1.finalResult = (execEvents ⟨r', a, f⟩ evs).1.finalResult ∧
    (execEvents ⟨r, a, f⟩ evs).2 = (execEvents ⟨r', a, f⟩ evs).2 := by
  induction evs with
  | nil => intro r r' a f; exact ⟨rfl, rfl, rfl⟩
  | cons e es ih =>
      intro r r' a f
      cases e with
      | streamTextDelta t =>
          by_cases ht : t.isEmpty = true
          · simpa [execEvents, execStep, extractSessionId, extractTextDelta,
              extractFinalText, ht] using ih r r' a f
          · simpa [execEvents, execStep, extractSessionId, extractTextDelta,
              extractFinalText, ht] using ih r r' (a ++ t) f
      | systemInit sid =>
          simp [execEvents, execStep, extractSessionId, extractTextDelta, extractFinalText]
      | resultSuccess res =>
          simpa [execEvents, execStep, extractSessionId, extractTextDelta,
            extractFinalText] using ih r r' a (some res)
      | other =>
          simpa [execEvents, execStep, extractSessionId, extractTextDelta,
            extractFinalText] using ih r r' a f

lemma executeQueryAttempt_completed (resume : Option Str) (run : AttemptRun)
    (h : run.crashMsg = none) :
    ∃ sid, executeQueryAttempt resume run
        = ((execEvents ⟨none, [], none⟩ run.events).2, .completed sid (runRaw run)) := by
  obtain ⟨hacc, hfin, hdel⟩ := execEvents_acc_final run.events resume none [] none
  rcases hE : execEvents ⟨resume, [], none⟩ run.events with ⟨st, dels⟩
  rcases hE' : execEvents (⟨none, [], none⟩ : ExecState) run.events with ⟨st', dels'⟩
  rw [hE, hE'] at hacc hfin hdel
  refine ⟨st.capturedSessionId, ?_⟩
  simp only [executeQueryAttempt, hE, h, runRaw, hE']
  simp at hdel ⊢
  exact ⟨hdel, by rw [hacc, hfin]⟩

lemma executeQueryAttempt_errored (resume : Option Str) (run : AttemptRun) (m : Str)
    (h : run.crashMsg = some m) :
    ∃ dels, executeQueryAttempt resume run = (dels, .errored m) := by
  rcases hE : execEvents ⟨resume, [], none⟩ run.events with ⟨st, dels⟩
  exact ⟨dels, by simp [executeQueryAttempt, hE, h]⟩

lemma throwResult_outcome (sess : SessionData) (um : SessionMessage) (e : Str)
    (c : Option Str) (dels : List Str) :
    (throwResult sess um e c dels).outcome = .error e := rfl

lemma throwResult_saved (sess : SessionData) (um : SessionMessage) (e : Str)
    (c : Option Str) (dels : List Str) :
    ∃ sid, (throwResult sess um e c dels).saved = some ⟨sid, sess.messages ++ [um]⟩ ∧
      (isClaudeProcessExitError e = true → sid = none) := by
  refine ⟨if isClaudeProcessExitError e then none else c, rfl, ?_⟩
  intro h
  simp [h]

lemma repeatedExit_not_classified : isClaudeProcessExitError repeatedExitMsg = false := by
  decide

lemma crashRun_not_soft {r : AttemptRun} (h : crashRun r = true) : softRun r = false := by
  unfold crashRun at h
  unfold softRun
  rcases hc : r.crashMsg with _ | m
  · rw [hc] at h; exact absurd h (by simp)
  · simp [hc]

lemma runLadder_nil (tg : Str → Str) (sess : SessionData) (um : SessionMessage) (ts : Str)
    (c le : Option Str) (ss : Bool) :
    runLadder tg sess um ts [] c le ss
      = if le.isSome && !ss then throwResult sess um repeatedExitMsg c []
        else { outcome := .ok fallbackText, saved := none, deliveries := [] } := by
  rw [runLadder]

lemma runLadder_cons_crash {cfg : QueryAttemptOptions} {run : AttemptRun} {dels : List Str}
    {m : Str} (tg : Str → Str) (sess : SessionData) (um : SessionMessage) (ts : Str)
    (rest : List (QueryAttemptOptions × AttemptRun)) (c le : Option Str) (ss : Bool)
    (hq : executeQueryAttempt cfg.resumeSessionId run = (dels, .errored m))
    (hcl : isClaudeProcessExitError m = true) :
    runLadder tg sess um ts ((cfg, run) :: rest) c le ss
      = { runLadder tg sess um ts rest c (some m) ss with
          deliveries := dels ++ (runLadder tg sess um ts rest c (some m) ss).deliveries } := by
  rw [runLadder, hq]
  simp [hcl]

lemma runLadder_cons_fatal {cfg : QueryAttemptOptions} {run : AttemptRun} {dels : List Str}
    {m : Str} (tg : Str → Str) (sess : SessionData) (um : SessionMessage) (ts : Str)
    (rest : List (QueryAttemptOptions × AttemptRun)) (c le : Option Str) (ss : Bool)
    (hq : executeQueryAttempt cfg.resumeSessionId run = (dels, .errored m))
    (hcl : isClaudeProcessExitError m = false) :
    runLadder tg sess um ts ((cfg, run) :: rest) c le ss = throwResult sess um m c dels := by
  rw [runLadder, hq]
  simp [hcl]

lemma runLadder_cons_soft {cfg : QueryAttemptOptions} {run : AttemptRun} {dels : List Str}
    {sid : Option Str} {raw : Str} (tg : Str → Str) (sess : SessionData)
    (um : SessionMessage) (ts : Str) (rest : List (QueryAttemptOptions × AttemptRun))
    (c le : Option Str) (ss : Bool)
    (hq : executeQueryAttempt cfg.resumeSessionId run = (dels, .completed sid raw))
    (hemp : (jsTrim raw).isEmpty = true) :
    runLadder tg sess um ts ((cfg, run) :: rest) c le ss
      = { runLadder tg sess um ts rest sid le true with
          deliveries := dels ++ (runLadder tg sess um ts rest sid le true).deliveries } := by
  rw [runLadder, hq]
  simp [hemp]

lemma runLadder_cons_success {cfg : QueryAttemptOptions} {run : AttemptRun} {dels : List Str}
    {sid : Option Str} {raw : Str} (tg : Str → Str) (sess : SessionData)
    (um : SessionMessage) (ts : Str) (rest : List (QueryAttemptOptions × AttemptRun))
    (c le : Option Str) (ss : Bool)
    (hq : executeQueryAttempt cfg.resumeSessionId run = (dels, .completed sid raw))
    (hemp : (jsTrim raw).isEmpty = false) :
    runLadder tg sess um ts ((cfg, run) :: rest) c le ss
      = { outcome := .ok (tg raw)
          saved := some { sdkSessionId := sid
                          messages := sess.messages ++ [um, ⟨.assistant, raw, ts⟩] }
          deliveries := dels } := by
  rw [runLadder, hq]
  simp [hemp]

lemma runLadder_error_saved (tg : Str → Str) (sess : SessionData) (um : SessionMessage)
    (ts : Str) :
    ∀ (pairs : List (QueryAttemptOptions × AttemptRun)) (c le : Option Str) (ss : Bool)
      (e : Str),
    (runLadder tg sess um ts pairs c le ss).outcome = .error e →
    ∃ sid, (runLadder tg sess um ts pairs c le ss).saved
        = some ⟨sid, sess.messages ++ [um]⟩ ∧ (isClaudeProcessExitError e = true → sid = none) := by
  intro pairs
  induction pairs with
  | nil =>
      intro c le ss e h
      rw [runLadder_nil] at h ⊢
      by_cases hc : (le.isSome && !ss) = true
      · rw [if_pos hc] at h ⊢
        rw [throwResult_outcome] at h
        obtain rfl : repeatedExitMsg = e := by simpa using h
        exact throwResult_saved sess um _ c []
      · rw [if_neg hc] at h
        simp at h
  | cons p rest ih =>
      obtain ⟨cfg, run⟩ := p
      intro c le ss e h
      rcases hm : run.crashMsg with _ | m
      · obtain ⟨sid, hq⟩ := executeQueryAttempt_completed cfg.resumeSessionId run hm
        by_cases hemp : (jsTrim (runRaw run)).isEmpty = true
        · rw [runLadder_cons_soft tg sess um ts rest c le ss hq hemp] at h ⊢
          exact ih sid le true e h
        · rw [runLadder_cons_success tg sess um ts rest c le ss hq
            (eq_false_of_ne_true hemp)] at h
          simp at h
      · obtain ⟨dels, hq⟩ := executeQueryAttempt_errored cfg.resumeSessionId run m hm
        by_cases hcl : isClaudeProcessExitError m = true
        · rw [runLadder_cons_crash tg sess um ts rest c le ss hq hcl] at h ⊢
          exact ih c (some m) ss e h
        · rw [runLadder_cons_fatal tg sess um ts rest c le ss hq
            (eq_false_of_ne_true hcl)] at h ⊢
          rw [throwResult_outcome] at h
          obtain rfl : m = e := by simpa using h
          exact throwResult_saved sess um _ c dels

lemma runLadder_all_crash (tg : Str → Str) (sess : SessionData) (um : SessionMessage)
    (ts : Str) :
    ∀ (pairs : List (QueryAttemptOptions × AttemptRun)) (c le : Option Str),
    pairs ≠ [] → (∀ p ∈ pairs, crashRun p.2 = true) →
    (runLadder tg sess um ts pairs c le false).outcome = .error repeatedExitMsg ∧
    (runLadder tg sess um ts pairs c le false).saved
        = some ⟨c, sess.messages ++ [um]⟩ := by
  intro pairs
  induction pairs with
  | nil => intro c le hne _; exact absurd rfl hne
  | cons p rest ih =>
      obtain ⟨cfg, run⟩ := p
      intro c le _ hall
      have hcr : crashRun run = true := hall (cfg, run) (List.mem_cons_self _ _)
      unfold crashRun at hcr
      rcases hm : run.crashMsg with _ | m
      · rw [hm] at hcr; exact absurd hcr (by simp)
      · rw [hm] at hcr
        obtain ⟨dels, hq⟩ := executeQueryAttempt_errored cfg.resumeSessionId run m hm
        rw [runLadder_cons_crash tg sess um ts rest c le false hq hcr]
        rcases rest with _ | ⟨p2, rest2⟩
        · rw [runLadder_nil]
          simp [throwResult, repeatedExit_not_classified]
        · have := ih c (some m) (by simp) (fun q hq2 => hall q (List.mem_cons_of_mem _ hq2))
          simpa using this

lemma runLadder_soft_fallback (tg : Str → Str) (sess : SessionData) (um : SessionMessage)
    (ts : Str) :
    ∀ (pairs : List (QueryAttemptOptions × AttemptRun)) (c le : Option Str) (ss : Bool),
    (∀ p ∈ pairs, crashRun p.2 = true ∨ softRun p.2 = true) →
    (ss = true ∨ ∃ p ∈ pairs, softRun p.2 = true) →
    (runLadder tg sess um ts pairs c le ss).outcome = .ok fallbackText ∧
    (runLadder tg sess um ts pairs c le ss).saved = none := by
  intro pairs
  induction pairs with
  | nil =>
      intro c le ss _ hsoft
      rcases hsoft with rfl | ⟨p, hp, _⟩
      · rw [runLadder_nil]; simp
      · simp at hp
  | cons p rest ih =>
      obtain ⟨cfg, run⟩ := p
      intro c le ss hall hsoft
      rcases hall (cfg, run) (List.mem_cons_self _ _) with hcr | hsr
      · have hcr' := hcr
        unfold crashRun at hcr'
        rcases hm : run.crashMsg with _ | m
        · rw [hm] at hcr'; exact absurd hcr' (by simp)
        · rw [hm] at hcr'
          obtain ⟨dels, hq⟩ := executeQueryAttempt_errored cfg.resumeSessionId run m hm
          rw [runLadder_cons_crash tg sess um ts rest c le ss hq hcr']
          have hsoft' : ss = true ∨ ∃ q ∈ rest, softRun q.2 = true := by
            rcases hsoft with rfl | ⟨q, hq2, hs⟩
            · exact Or.inl rfl
            · rcases List.mem_cons.mp hq2 with rfl | hq3
              · rw [crashRun_not_soft hcr] at hs
                exact absurd hs (by simp)
              · exact Or.inr ⟨q, hq3, hs⟩
          have := ih c (some m) ss (fun q hq2 => hall q (List.mem_cons_of_mem _ hq2)) hsoft'
          simpa using this
      · have hnc : run.crashMsg = none := by
          unfold softRun at hsr
          rcases hm : run.crashMsg with _ | m
          · rfl
          · rw [hm] at hsr; simp at hsr
        obtain ⟨sid, hq⟩ := executeQueryAttempt_completed cfg.resumeSessionId run hnc
        have hemp : (jsTrim (runRaw run)).isEmpty = true := by
          unfold softRun at hsr
          rw [hnc] at hsr
          simpa using hsr
        rw [runLadder_cons_soft tg sess um ts rest c le ss hq hemp]
        have := ih sid le true (fun q hq2 => hall q (List.mem_cons_of_mem _ hq2)) (Or.inl rfl)
        simpa using this

lemma attempts_length (sdkSessionId configuredModel : Option Str) :
    (attempts sdkSessionId configuredModel).length = 6 := rfl

lemma mem_zip_of_mem_right {α β : Type} {r : β} :
    ∀ (l₁ : List α) (l₂ : List β), l₂.length ≤ l₁.length → r ∈ l₂ →
    ∃ a, (a, r) ∈ l₁.zip l₂ := by
  intro l₁ l₂
  induction l₂ generalizing l₁ with
  | nil => intro _ h; simp at h
  | cons b l₂' ih =>
      intro hlen hmem
      rcases l₁ with _ | ⟨a, l₁'⟩
      · simp at hlen
      · rcases List.mem_cons.mp hmem with rfl | hmem'
        · exact ⟨a, by simp⟩
        · obtain ⟨a', ha'⟩ := ih l₁' (by simpa using Nat.le_of_succ_le_succ hlen) hmem'
          exact ⟨a', by simp [ha']⟩

lemma runLadder_first_success (tg : Str → Str) (sess : SessionData) (um : SessionMessage)
    (ts : Str) :
    ∀ (pre : List AttemptRun) (cfgs : List QueryAttemptOptions) (run : AttemptRun)
      (post : List AttemptRun) (c le : Option Str) (ss : Bool),
    pre.length + 1 ≤ cfgs.length →
    (∀ r ∈ pre, crashRun r = true ∨ softRun r = true) →
    run.crashMsg = none →
    (jsTrim (runRaw run)).isEmpty = false →
    (runLadder tg sess um ts (cfgs.zip (pre ++ run :: post)) c le ss).outcome
        = .ok (tg (runRaw run)) ∧
    ∃ sid, (runLadder tg sess um ts (cfgs.zip (pre ++ run :: post)) c le ss).saved
        = some ⟨sid, sess.messages ++ [um, ⟨.assistant, runRaw run, ts⟩]⟩ := by
  intro pre
  induction pre with
  | nil =>
      intro cfgs run post c le ss hlen _ hnc hne
      rcases cfgs with _ | ⟨cfg, cfgs'⟩
      · simp at hlen
      · obtain ⟨sid, hq⟩ := executeQueryAttempt_completed cfg.resumeSessionId run hnc
        simp only [List.nil_append, List.zip_cons_cons]
        rw [runLadder_cons_success tg sess um ts _ c le ss hq hne]
        exact ⟨rfl, sid, rfl⟩
  | cons r0 pre' ih =>
      intro cfgs run post c le ss hlen hpre hnc hne
      rcases cfgs with _ | ⟨cfg, cfgs'⟩
      · simp at hlen
      · simp only [List.cons_append, List.zip_cons_cons]
        have hlen' : pre'.length + 1 ≤ cfgs'.length := by
          simpa using Nat.le_of_succ_le_succ hlen
        have hpre' : ∀ r ∈ pre', crashRun r = true ∨ softRun r = true :=
          fun r hr => hpre r (List.mem_cons_of_mem _ hr)
        rcases hpre r0 (List.mem_cons_self _ _) with hcr | hsr
        · have hcr' := hcr
          unfold crashRun at hcr'
          rcases hm : r0.crashMsg with _ | m
          · rw [hm] at hcr'; exact absurd hcr' (by simp)
          · rw [hm] at hcr'
            obtain ⟨dels, hq⟩ := executeQueryAttempt_errored cfg.resumeSessionId r0 m hm
            rw [runLadder_cons_crash tg sess um ts _ c le ss hq hcr']
            simpa using ih cfgs' run post c (some m) ss hlen' hpre' hnc hne
        · have hnc0 : r0.crashMsg = none := by
            unfold softRun at hsr
            rcases hm : r0.crashMsg with _ | m
            · rfl
            · rw [hm] at hsr; simp at hsr
          obtain ⟨sid0, hq⟩ := executeQueryAttempt_completed cfg.resumeSessionId r0 hnc0
          have hemp : (jsTrim (runRaw r0)).isEmpty = true := by
            unfold softRun at hsr
            rw [hnc0] at hsr
            simpa using hsr
          rw [runLadder_cons_soft tg sess um ts _ c le ss hq hemp]
          simpa using ih cfgs' run post sid0 le true hlen' hpre' hnc hne

-- Delivery-trace lemmas for the streaming monotonicity analysis.

lemma execStep_acc_mono (s : ExecState) (e : SDKEvent) :
    s.accumulatedText <+: (execStep s e).1.accumulatedText ∧
    (∀ x, (execStep s e).2 = some x → x = (execStep s e).1.accumulatedText) := by
  cases e with
  | streamTextDelta t =>
      by_cases ht : t.isEmpty = true
      · simp [execStep, extractSessionId, extractTextDelta, extractFinalText, ht]
      · simp [execStep, extractSessionId, extractTextDelta, extractFinalText, ht]
  | systemInit sid =>
      simp [execStep, extractSessionId, extractTextDelta, extractFinalText]
  | resultSuccess res =>
      simp [execStep, extractSessionId, extractTextDelta, extractFinalText]
  | other =>
      simp [execStep, extractSessionId, extractTextDelta, extractFinalText]

lemma execEvents_deliveries_mono (evs : List SDKEvent) :
    ∀ (s : ExecState),
    ((execEvents s evs).2).Pairwise (fun a b => a <+: b) ∧
    (∀ d ∈ (execEvents s evs).2, s.accumulatedText <+: d) := by
  induction evs with
  | nil => intro s; simp [execEvents]
  | cons e es ih =>
      intro s
      obtain ⟨hmono, hdel⟩ := execStep_acc_mono s e
      rcases hE : execStep s e with ⟨s', dopt⟩
      rw [hE] at hmono hdel
      simp only at hmono hdel
      obtain ⟨ihp, ihe⟩ := ih s'
      rcases dopt with _ | x
      · constructor
        · simpa [execEvents, hE] using ihp
        · intro d hd
          simp [execEvents, hE] at hd
          exact hmono.trans (ihe d hd)
      · have hx : x = s'.accumulatedText := hdel x rfl
        subst hx
        constructor
        · simp only [execEvents, hE]
          exact List.Pairwise.cons (by simpa using ihe) ihp
        · intro d hd
          simp [execEvents, hE] at hd
          rcases hd with rfl | hd
          · exact hmono
          · exact hmono.trans (ihe d hd)

lemma executeQueryAttempt_deliveries_mono (resume : Option Str) (run : AttemptRun) :
    ((executeQueryAttempt resume run).1).Pairwise (fun a b => a <+: b) := by
  rcases hE : execEvents ⟨resume, [], none⟩ run.events with ⟨st, dels⟩
  have := (execEvents_deliveries_mono run.events ⟨resume, [], none⟩).1
  rw [hE] at this
  rcases hm : run.crashMsg with _ | m <;>
    simpa [executeQueryAttempt, hE, hm] using this

lemma runLadder_deliveries_blocks (tg : Str → Str) (sess : SessionData) (um : SessionMessage)
    (ts : Str) :
    ∀ (pairs : List (QueryAttemptOptions × AttemptRun)) (c le : Option Str) (ss : Bool),
    ∃ blocks : List (List Str),
      (runLadder tg sess um ts pairs c le ss).deliveries = blocks.flatten ∧
      ∀ b ∈ blocks, b.Pairwise (fun a b => a <+: b) := by
  intro pairs
  induction pairs with
  | nil =>
      intro c le ss
      refine ⟨[], ?_, by simp⟩
      rw [runLadder_nil]
      split <;> simp [throwResult]
  | cons p rest ih =>
      obtain ⟨cfg, run⟩ := p
      intro c le ss
      have hdels := executeQueryAttempt_deliveries_mono cfg.resumeSessionId run
      rcases hq : executeQueryAttempt cfg.resumeSessionId run with ⟨dels, outc⟩
      rw [hq] at hdels
      simp only at hdels
      rcases outc with m | ⟨sid, raw⟩
      · by_cases hcl : isClaudeProcessExitError m = true
        · obtain ⟨blocks, hb, hbp⟩ := ih c (some m) ss
          refine ⟨dels :: blocks, ?_, ?_⟩
          · rw [runLadder_cons_crash tg sess um ts rest c le ss hq hcl]
            simp [hb]
          · intro b hb2
            rcases List.mem_cons.mp hb2 with rfl | hb3
            · exact hdels
            · exact hbp b hb3
        · refine ⟨[dels], ?_, ?_⟩
          · rw [runLadder_cons_fatal tg sess um ts rest c le ss hq (eq_false_of_ne_true hcl)]
            simp [throwResult]
          · intro b hb2
            rcases List.mem_cons.mp hb2 with rfl | hb3
            · exact hdels
            · simp at hb3
      · by_cases hemp : (jsTrim raw).isEmpty = true
        · obtain ⟨blocks, hb, hbp⟩ := ih sid le true
          refine ⟨dels :: blocks, ?_, ?_⟩
          · rw [runLadder_cons_soft tg sess um ts rest c le ss hq hemp]
            simp [hb]
          · intro b hb2
            rcases List.mem_cons.mp hb2 with rfl | hb3
            · exact hdels
            · exact hbp b hb3
        · refine ⟨[dels], ?_, ?_⟩
          · rw [runLadder_cons_success tg sess um ts rest c le ss hq
              (eq_false_of_ne_true hemp)]
            simp
          · intro b hb2
            rcases List.mem_cons.mp hb2 with rfl | hb3
            · exact hdels
            · simp at hb3

-- Claim theorems for the agent invoker.

/-- C1, counterexample: a turn in which every ladder attempt crashes with a
crash-classified message throws the repeated-exit error, and the persisted
record still carries the prior continuation handle, because the thrown
wrapper message does not satisfy the crash classifier.  The claim states
that after such a crash failure the saved record carries no continuation
handle; here it carries some sid. -/
theorem c1_counterexample :
    (List.replicate 6
        ({ events := [],
           crashMsg := some "Claude Code process exited with code 1".toList }
          : AttemptRun)).all crashRun = true ∧
    (runAgent id { sdkSessionId := some "sid".toList, messages := [] }
        ⟨.user, "hi".toList, "t0".toList⟩ "t1".toList none
        (List.replicate 6
          { events := [],
            crashMsg := some "Claude Code process exited with code 1".toList })).outcome
      = .error repeatedExitMsg ∧
    (runAgent id { sdkSessionId := some "sid".toList, messages := [] }
        ⟨.user, "hi".toList, "t0".toList⟩ "t1".toList none
        (List.replicate 6
          { events := [],
            crashMsg := some "Claude Code process exited with code 1".toList })).saved
      = some { sdkSessionId := some "sid".toList
               messages := [⟨.user, "hi".toList, "t0".toList⟩] } ∧
    isClaudeProcessExitError repeatedExitMsg = false := by
  exact ⟨rfl, rfl, rfl, rfl⟩

/-- C1, amended: on every invocation failure of runAgent the user turn is
persisted with no assistant entry, and the continuation handle is dropped
exactly when the caught error message satisfies the crash classifier; the
repeated-exit error thrown after an all-crash turn does not satisfy it, so
the saved record preserves the prior continuation handle. -/
theorem c1_failure_persistence (tg : Str → Str) (session : SessionData)
    (userMessage : SessionMessage) (ts : Str) (configuredModel : Option Str)
    (runs : List AttemptRun) :
    (∀ e, (runAgent tg session userMessage ts configuredModel runs).outcome = .error e →
       ∃ sid, (runAgent tg session userMessage ts configuredModel runs).saved
           = some ⟨sid, session.messages ++ [userMessage]⟩ ∧
         (isClaudeProcessExitError e = true → sid = none)) ∧
    (runs.length = 6 → (∀ r ∈ runs, crashRun r = true) →
       (runAgent tg session userMessage ts configuredModel runs).outcome
           = .error repeatedExitMsg ∧
       (runAgent tg session userMessage ts configuredModel runs).saved
           = some ⟨session.sdkSessionId, session.messages ++ [userMessage]⟩) := by
  constructor
  · intro e h
    unfold runAgent at h ⊢
    exact runLadder_error_saved tg session userMessage ts _ _ _ _ e h
  · intro hlen hall
    unfold runAgent
    have hne : (attempts session.sdkSessionId configuredModel).zip runs ≠ [] := by
      have hz : ((attempts session.sdkSessionId configuredModel).zip runs).length = 6 := by
        rw [List.length_zip, attempts_length, hlen]
        simp
      intro hemp
      rw [hemp] at hz
      simp at hz
    have hall' : ∀ p ∈ (attempts session.sdkSessionId configuredModel).zip runs,
        crashRun p.2 = true := by
      intro p hp
      obtain ⟨a, b⟩ := p
      exact hall b (List.of_mem_zip hp).2
    exact runLadder_all_crash tg session userMessage ts _ session.sdkSessionId none hne hall'

/-- C1, witness: the amended theorem applied to a fatal single-attempt
failure and to a concrete all-crash turn. -/
theorem c1_witness :
    (∃ sid,
       (runAgent id { sdkSessionId := some "sid".toList, messages := [] }
           ⟨.user, "hi".toList, "t0".toList⟩ "t1".toList none
           [{ events := [], crashMsg := some "boom".toList }]).saved
         = some ⟨sid, [⟨.user, "hi".toList, "t0".toList⟩]⟩ ∧
       (isClaudeProcessExitError "boom".toList = true → sid = none)) ∧
    (runAgent id { sdkSessionId := some "sid".toList, messages := [] }
        ⟨.user, "hi".toList, "t0".toList⟩ "t1".toList none
        (List.replicate 6
          { events := [],
            crashMsg := some "Claude Code process exited with code 1".toList })).outcome
      = .error repeatedExitMsg := by
  constructor
  · exact (c1_failure_persistence id { sdkSessionId := some "sid".toList, messages := [] }
      ⟨.user, "hi".toList, "t0".toList⟩ "t1".toList none
      [{ events := [], crashMsg := some "boom".toList }]).1 "boom".toList rfl
  · exact ((c1_failure_persistence id { sdkSessionId := some "sid".toList, messages := [] }
      ⟨.user, "hi".toList, "t0".toList⟩ "t1".toList none
      (List.replicate 6
        { events := [],
          crashMsg := some "Claude Code process exited with code 1".toList })).2
      rfl (by decide)).1

/-- C2: when every ladder attempt crashes with a crash-classified error and
none produced a soft failure, runAgent throws the distinguishable
repeated-exit retry-later error; when every attempt failed but at least
one completed with whitespace-only text (a soft failure), runAgent returns
the generic fallback text as a normal result instead of throwing. -/
theorem c2_ladder_exhaustion (tg : Str → Str) (session : SessionData)
    (userMessage : SessionMessage) (ts : Str) (configuredModel : Option Str)
    (runs : List AttemptRun) :
    (runs.length = 6 → (∀ r ∈ runs, crashRun r = true) →
        (runAgent tg session userMessage ts configuredModel runs).outcome
          = .error repeatedExitMsg) ∧
    (runs.length = 6 → (∀ r ∈ runs, crashRun r = true ∨ softRun r = true) →
        (∃ r ∈ runs, softRun r = true) →
        (runAgent tg session userMessage ts configuredModel runs).outcome
          = .ok fallbackText) := by
  constructor
  · intro hlen hall
    unfold runAgent
    have hne : (attempts session.sdkSessionId configuredModel).zip runs ≠ [] := by
      have hz : ((attempts session.sdkSessionId configuredModel).zip runs).length = 6 := by
        rw [List.length_zip, attempts_length, hlen]
        simp
      intro hemp
      rw [hemp] at hz
      simp at hz
    have hall' : ∀ p ∈ (attempts session.sdkSessionId configuredModel).zip runs,
        crashRun p.2 = true := by
      intro p hp
      obtain ⟨a, b⟩ := p
      exact hall b (List.of_mem_zip hp).2
    exact (runLadder_all_crash tg session userMessage ts _ session.sdkSessionId none
      hne hall').1
  · intro hlen hall hex
    unfold runAgent
    have hall' : ∀ p ∈ (attempts session.sdkSessionId configuredModel).zip runs,
        crashRun p.2 = true ∨ softRun p.2 = true := by
      intro p hp
      obtain ⟨a, b⟩ := p
      exact hall b (List.of_mem_zip hp).2
    obtain ⟨r, hr, hs⟩ := hex
    obtain ⟨a, ha⟩ := mem_zip_of_mem_right (attempts session.sdkSessionId configuredModel)
      runs (by rw [attempts_length, hlen]) hr
    exact (runLadder_soft_fallback tg session userMessage ts _ session.sdkSessionId none
      false hall' (Or.inr ⟨(a, r), ha, hs⟩)).1

/-- C2, witness: the theorem applied to a concrete all-crash turn and to a
concrete turn with one crash and one soft whitespace attempt. -/
theorem c2_witness :
    (runAgent id { sdkSessionId := none, messages := [] }
        ⟨.user, "hi".toList, "t0".toList⟩ "t1".toList none
        (List.replicate 6
          { events := [],
            crashMsg := some "Claude Code process exited with code 1".toList })).outcome
      = .error repeatedExitMsg ∧
    (runAgent id { sdkSessionId := none, messages := [] }
        ⟨.user, "hi".toList, "t0".toList⟩ "t1".toList none
        ({ events := [], crashMsg := some "Claude Code process exited with code 1".toList }
          :: List.replicate 5
            ({ events := [.streamTextDelta "  ".toList], crashMsg := none }
              : AttemptRun))).outcome
      = .ok fallbackText := by
  constructor
  · exact (c2_ladder_exhaustion id { sdkSessionId := none, messages := [] }
      ⟨.user, "hi".toList, "t0".toList⟩ "t1".toList none
      (List.replicate 6
        { events := [],
          crashMsg := some "Claude Code process exited with code 1".toList })).1
      rfl (by decide)
  · exact (c2_ladder_exhaustion id { sdkSessionId := none, messages := [] }
      ⟨.user, "hi".toList, "t0".toList⟩ "t1".toList none
      ({ events := [], crashMsg := some "Claude Code process exited with code 1".toList }
        :: List.replicate 5
          ({ events := [.streamTextDelta "  ".toList], crashMsg := none }
            : AttemptRun))).2
      rfl (by decide) (by decide)

/-- C6: when the attempts before the first successful one all crash or
yield whitespace, with exactly one soft whitespace attempt among them, and
a later attempt completes with non-whitespace text, runAgent returns that
text and persists exactly the prior history plus the user turn plus one
assistant message whose content is that text. -/
theorem c6_soft_retry_history (tg : Str → Str) (session : SessionData)
    (userMessage : SessionMessage) (ts : Str) (configuredModel : Option Str)
    (pre : List AttemptRun) (run : AttemptRun) (post : List AttemptRun)
    (hlen : (pre ++ run :: post).length = 6)
    (hpre : ∀ r ∈ pre, crashRun r = true ∨ softRun r = true)
    (hone : pre.countP (fun r => softRun r) = 1)
    (hnc : run.crashMsg = none)
    (hne : (jsTrim (runRaw run)).isEmpty = false) :
    (runAgent tg session userMessage ts configuredModel (pre ++ run :: post)).outcome
        = .ok (tg (runRaw run)) ∧
    ∃ sid, (runAgent tg session userMessage ts configuredModel (pre ++ run :: post)).saved
        = some ⟨sid, session.messages ++ [userMessage, ⟨.assistant, runRaw run, ts⟩]⟩ := by
  unfold runAgent
  apply runLadder_first_success
  · rw [attempts_length]
    simp [List.length_append] at hlen
    omega
  · exact hpre
  · exact hnc
  · exact hne

/-- C6, witness: one soft whitespace attempt followed by a successful
attempt producing Hello. -/
theorem c6_witness :
    (runAgent id { sdkSessionId := none, messages := [] }
        ⟨.user, "hi".toList, "t0".toList⟩ "t1".toList none
        ([{ events := [.streamTextDelta "  ".toList], crashMsg := none }] ++
          { events := [.resultSuccess "Hello".toList], crashMsg := none } ::
          List.replicate 4 ({ events := [], crashMsg := none } : AttemptRun))).outcome
      = .ok ("Hello".toList) ∧
    ∃ sid,
      (runAgent id { sdkSessionId := none, messages := [] }
          ⟨.user, "hi".toList, "t0".toList⟩ "t1".toList none
          ([{ events := [.streamTextDelta "  ".toList], crashMsg := none }] ++
            { events := [.resultSuccess "Hello".toList], crashMsg := none } ::
            List.replicate 4 ({ events := [], crashMsg := none } : AttemptRun))).saved
        = some ⟨sid, [⟨.user, "hi".toList, "t0".toList⟩,
                      ⟨.assistant, "Hello".toList, "t1".toList⟩]⟩ := by
  exact c6_soft_retry_history id { sdkSessionId := none, messages := [] }
    ⟨.user, "hi".toList, "t0".toList⟩ "t1".toList none
    [{ events := [.streamTextDelta "  ".toList], crashMsg := none }]
    { events := [.resultSuccess "Hello".toList], crashMsg := none }
    (List.replicate 4 { events := [], crashMsg := none })
    rfl (by decide) (by decide) rfl (by decide)

/-- C9, counterexample: a first attempt streams Hello and then crashes, the
retry streams Hi; the turn delivery trace is Hello then Hi, and Hi does
not extend Hello, so deliveries are not monotone across retry attempts. -/
theorem c9_counterexample :
    (runAgent id { sdkSessionId := none, messages := [] }
        ⟨.user, "hi".toList, "t0".toList⟩ "t1".toList none
        [{ events := [.streamTextDelta "Hello".toList],
           crashMsg := some "Claude Code process exited with code 1".toList },
         { events := [.streamTextDelta "Hi".toList, .resultSuccess "Hi".toList],
           crashMsg := none }]).deliveries
      = ["Hello".toList, "Hi".toList] ∧
    ¬ ("Hello".toList <+: "Hi".toList) := by
  refine ⟨rfl, ?_⟩
  rintro ⟨t, ht⟩
  have hlen := congrArg List.length ht
  simp at hlen

/-- C9, amended: within one attempt the partial texts delivered to the
front-end callback are monotonically growing in delivery order (each later
one extends each earlier one); the delivery trace of a whole turn is the
concatenation of such per-attempt monotone blocks, the accumulator being
reset at each retry attempt. -/
theorem c9_stream_monotonicity (tg : Str → Str) (session : SessionData)
    (userMessage : SessionMessage) (ts : Str) (configuredModel : Option Str)
    (runs : List AttemptRun) :
    (∀ (resume : Option Str) (run : AttemptRun),
        ((executeQueryAttempt resume run).1).Pairwise (fun a b => a <+: b)) ∧
    (∃ blocks : List (List Str),
        (runAgent tg session userMessage ts configuredModel runs).deliveries
          = blocks.flatten ∧
        ∀ b ∈ blocks, b.Pairwise (fun a b => a <+: b)) := by
  refine ⟨executeQueryAttempt_deliveries_mono, ?_⟩
  unfold runAgent
  exact runLadder_deliveries_blocks tg session userMessage ts _ _ _ _

-- Permission broker lemmas.

lemma lookupReq_removeReq_self : ∀ (s : BrokerState) (id : Str),
    lookupReq (removeReq s id) id = none := by
  intro s id
  induction s with
  | nil => simp [removeReq, lookupReq]
  | cons p rest ih =>
      obtain ⟨k, e⟩ := p
      by_cases hk : k = id
      · simp only [removeReq, if_pos hk]
        exact ih
      · simp only [removeReq, if_neg hk, lookupReq]
        exact ih

lemma lookupReq_removeReq_ne : ∀ (s : BrokerState) {id id' : Str}, id ≠ id' →
    lookupReq (removeReq s id') id = lookupReq s id := by
  intro s id id' h
  induction s with
  | nil => simp [removeReq, lookupReq]
  | cons p rest ih =>
      obtain ⟨k, e⟩ := p
      by_cases hk : k = id'
      · simp only [removeReq, if_pos hk]
        rw [ih, lookupReq, if_neg (fun hki : k = id => h (hki ▸ hk ▸ rfl))]
      · simp only [removeReq, if_neg hk, lookupReq]
        by_cases hki : k = id
        · rw [if_pos hki, if_pos hki]
        · rw [if_neg hki, if_neg hki]
          exact ih

lemma lookupReq_setReq_self (s : BrokerState) (id : Str) (e : PendingRequest) :
    lookupReq (setReq s id e) id = some e := by
  simp [setReq, lookupReq]

lemma lookupReq_setReq_ne (s : BrokerState) {id id' : Str} (h : id ≠ id')
    (e : PendingRequest) :
    lookupReq (setReq s id' e) id = lookupReq s id := by
  rw [setReq, lookupReq, if_neg (Ne.symm h)]
  exact lookupReq_removeReq_ne s h

lemma brokerRun_cons (s : BrokerState) (e : BrokerEvent) (es : List BrokerEvent) :
    brokerRun s (e :: es)
      = ((brokerRun (brokerStep s e).1 es).1,
         (brokerStep s e).2 ++ (brokerRun (brokerStep s e).1 es).2) := by
  rcases h : brokerStep s e with ⟨s', as⟩
  rcases h2 : brokerRun s' es with ⟨s'', as2⟩
  simp [brokerRun, h, h2]

lemma brokerStep_register (s : BrokerState) (id : Str) (c m : Int) :
    brokerStep s (.register id c m) = (setReq s id ⟨c, m⟩, []) := rfl

lemma brokerStep_timerFire_live (s : BrokerState) (id : Str) (e0 : PendingRequest)
    (h : lookupReq s id = some e0) :
    brokerStep s (.timerFire id)
      = (removeReq s id,
         [.editTimedOut id e0.chatId e0.messageId, .resolveReq id (.deny timeoutMsg)]) := by
  simp only [brokerStep]
  rw [h]

lemma brokerStep_timerFire_dead (s : BrokerState) (id : Str)
    (h : lookupReq s id = none) :
    brokerStep s (.timerFire id) = (s, []) := by
  simp only [brokerStep]
  rw [h]

lemma brokerStep_callback_miss (s : BrokerState) (data : Str)
    (hp : ("perm:".toList).isPrefixOf data = true)
    (h : lookupReq s (beforeLastColon data) = none) :
    brokerStep s (.callback data) = (s, [.answerExpired]) := by
  simp only [brokerStep]
  rw [if_pos hp]
  simp only [h]

lemma brokerStep_callback_hit (s : BrokerState) (data : Str) (pending : PendingRequest)
    (hp : ("perm:".toList).isPrefixOf data = true)
    (h : lookupReq s (beforeLastColon data) = some pending) :
    brokerStep s (.callback data)
      = (removeReq s (beforeLastColon data),
         [.editDecided (beforeLastColon data) pending.chatId pending.messageId
            (afterLastColon data = "allow".toList),
          .answerDecided (afterLastColon data = "allow".toList),
          .resolveReq (beforeLastColon data)
            (if afterLastColon data = "allow".toList then .allow
             else .deny userDeniedMsg)]) := by
  simp only [brokerStep]
  rw [if_pos hp]
  simp only [h]

lemma brokerStep_callback_other (s : BrokerState) (data : Str)
    (hp : ¬ (("perm:".toList).isPrefixOf data = true)) :
    brokerStep s (.callback data) = (s, []) := by
  simp only [brokerStep]
  rw [if_neg hp]

/-- A resolve action for the given correlation id carrying a decision other
than the forced timeout denial: the resolutions produced by
handlePermissionCallback. -/
def isDecisionResolveFor (id : Str) : BrokerAction → Bool
  | .resolveReq i .allow => i = id
  | .resolveReq i (.deny m) => i = id && !(m = timeoutMsg)
  | _ => false

lemma countP_resolve_split (id : Str) : ∀ (as : List BrokerAction),
    as.countP (isResolveFor id)
      = as.countP (isTimeoutResolveFor id) + as.countP (isDecisionResolveFor id) := by
  intro as
  induction as with
  | nil => simp
  | cons a rest ih =>
      simp only [List.countP_cons, ih]
      have hpt : (if isResolveFor id a then 1 else 0)
          = (if isTimeoutResolveFor id a then 1 else 0)
            + (if isDecisionResolveFor id a then 1 else 0) := by
        rcases a with ⟨i, d⟩ | _ | _ | _ | _
        · rcases d with _ | m
          · by_cases hi : i = id <;>
              simp [isResolveFor, isTimeoutResolveFor, isDecisionResolveFor, hi]
          · by_cases hi : i = id <;> by_cases hm : m = timeoutMsg <;>
              simp [isResolveFor, isTimeoutResolveFor, isDecisionResolveFor, hi, hm]
        all_goals simp [isResolveFor, isTimeoutResolveFor, isDecisionResolveFor]
      omega

lemma countP_step_edit_eq_timeout (id : Str) (s : BrokerState) (e : BrokerEvent) :
    (brokerStep s e).2.countP (isTimedOutEditFor id)
      = (brokerStep s e).2.countP (isTimeoutResolveFor id) := by
  cases e with
  | register id' c m => rw [brokerStep_register]; rfl
  | timerFire id' =>
      rcases h : lookupReq s id' with _ | e0
      · rw [brokerStep_timerFire_dead s id' h]; rfl
      · rw [brokerStep_timerFire_live s id' e0 h]
        by_cases hi : id' = id <;>
          simp [isTimedOutEditFor, isTimeoutResolveFor, hi]
  | callback data =>
      by_cases hp : ("perm:".toList).isPrefixOf data = true
      · rcases h : lookupReq s (beforeLastColon data) with _ | pending
        · rw [brokerStep_callback_miss s data hp h]
          simp [isTimedOutEditFor, isTimeoutResolveFor]
        · rw [brokerStep_callback_hit s data pending hp h]
          have hne : (decide (userDeniedMsg = timeoutMsg)) = false := by decide
          by_cases ha : afterLastColon data = "allow".toList
          · rw [if_pos ha]
            simp [isTimedOutEditFor, isTimeoutResolveFor]
          · rw [if_neg ha]
            simp [isTimedOutEditFor, isTimeoutResolveFor, hne]
      · rw [brokerStep_callback_other s data hp]; rfl

lemma brokerRun_edit_eq_timeout (id : Str) : ∀ (es : List BrokerEvent) (s : BrokerState),
    (brokerRun s es).2.countP (isTimedOutEditFor id)
      = (brokerRun s es).2.countP (isTimeoutResolveFor id) := by
  intro es
  induction es with
  | nil => intro s; simp [brokerRun]
  | cons e es' ih =>
      intro s
      rw [brokerRun_cons]
      simp only [List.countP_append]
      rw [ih, countP_step_edit_eq_timeout]

lemma brokerRun_resolve_bound (id : Str) : ∀ (es : List BrokerEvent) (s : BrokerState),
    (brokerRun s es).2.countP (isResolveFor id)
      ≤ (if lookupReq s id = none then 0 else 1) + es.countP (isRegisterFor id) := by
  intro es
  induction es with
  | nil => intro s; simp [brokerRun]
  | cons e es' ih =>
      intro s
      rw [brokerRun_cons]
      simp only [List.countP_append, List.countP_cons]
      have ihh := ih (brokerStep s e).1
      have key : (brokerStep s e).2.countP (isResolveFor id)
          + (if lookupReq (brokerStep s e).1 id = none then 0 else 1)
          ≤ (if lookupReq s id = none then 0 else 1)
            + (if isRegisterFor id e then 1 else 0) := by
        cases e with
        | register id' c m =>
            rw [brokerStep_register]
            show List.countP (isResolveFor id) []
                + (if lookupReq (setReq s id' ⟨c, m⟩) id = none then 0 else 1)
              ≤ (if lookupReq s id = none then 0 else 1)
                + (if isRegisterFor id (.register id' c m) then 1 else 0)
            simp only [List.countP_nil, Nat.zero_add]
            by_cases hi : id = id'
            · subst hi
              rw [lookupReq_setReq_self]
              have hreg : isRegisterFor id (.register id c m) = true := by
                simp [isRegisterFor]
              rw [hreg]
              simp only [reduceCtorEq, if_false, if_true]
              split <;> omega
            · rw [lookupReq_setReq_ne s hi]
              have hreg : isRegisterFor id (.register id' c m) = false := by
                simp only [isRegisterFor, decide_eq_false_iff_not]
                exact fun hh => hi hh.symm
              rw [hreg]
              simp
        | timerFire id' =>
            rcases h : lookupReq s id' with _ | e0
            · rw [brokerStep_timerFire_dead s id' h]
              show List.countP (isResolveFor id) []
                  + (if lookupReq s id = none then 0 else 1)
                ≤ (if lookupReq s id = none then 0 else 1)
                  + (if isRegisterFor id (.timerFire id') then 1 else 0)
              simp only [List.countP_nil, Nat.zero_add]
              split <;> omega
            · rw [brokerStep_timerFire_live s id' e0 h]
              show List.countP (isResolveFor id)
                  [.editTimedOut id' e0.chatId e0.messageId,
                   .resolveReq id' (.deny timeoutMsg)]
                + (if lookupReq (removeReq s id') id = none then 0 else 1)
                ≤ (if lookupReq s id = none then 0 else 1)
                  + (if isRegisterFor id (.timerFire id') then 1 else 0)
              have hreg : isRegisterFor id (.timerFire id') = false := rfl
              rw [hreg]
              simp only [Bool.false_eq_true, if_false, Nat.add_zero]
              by_cases hi : id = id'
              · subst hi
                rw [lookupReq_removeReq_self, h]
                simp [isResolveFor, isTimedOutEditFor]
              · rw [lookupReq_removeReq_ne s hi]
                have hne : id' ≠ id := Ne.symm hi
                have h1 : List.countP (isResolveFor id)
                    [BrokerAction.editTimedOut id' e0.chatId e0.messageId,
                     BrokerAction.resolveReq id' (Decision.deny timeoutMsg)] = 0 := by
                  simp [isResolveFor, hne]
                rw [h1]
                omega
        | callback data =>
            by_cases hp : ("perm:".toList).isPrefixOf data = true
            · rcases h : lookupReq s (beforeLastColon data) with _ | pending
              · rw [brokerStep_callback_miss s data hp h]
                show List.countP (isResolveFor id) [.answerExpired]
                    + (if lookupReq s id = none then 0 else 1)
                  ≤ (if lookupReq s id = none then 0 else 1)
                    + (if isRegisterFor id (.callback data) then 1 else 0)
                have h1 : List.countP (isResolveFor id)
                    [BrokerAction.answerExpired] = 0 := by simp [isResolveFor]
                rw [h1]
                omega
              · rw [brokerStep_callback_hit s data pending hp h]
                show List.countP (isResolveFor id)
                    [.editDecided (beforeLastColon data) pending.chatId pending.messageId
                       (afterLastColon data = "allow".toList),
                     .answerDecided (afterLastColon data = "allow".toList),
                     .resolveReq (beforeLastColon data)
                       (if afterLastColon data = "allow".toList then .allow
                        else .deny userDeniedMsg)]
                    + (if lookupReq (removeReq s (beforeLastColon data)) id = none
                       then 0 else 1)
                  ≤ (if lookupReq s id = none then 0 else 1)
                    + (if isRegisterFor id (.callback data) then 1 else 0)
                have hreg : isRegisterFor id (.callback data) = false := rfl
                rw [hreg]
                simp only [Bool.false_eq_true, if_false, Nat.add_zero]
                by_cases hi : id = beforeLastColon data
                · rw [hi, lookupReq_removeReq_self, h]
                  simp [isResolveFor]
                · rw [lookupReq_removeReq_ne s hi]
                  have hne : beforeLastColon data ≠ id := Ne.symm hi
                  have h1 : List.countP (isResolveFor id)
                      [BrokerAction.editDecided (beforeLastColon data) pending.chatId
                         pending.messageId (afterLastColon data = "allow".toList),
                       BrokerAction.answerDecided (afterLastColon data = "allow".toList),
                       BrokerAction.resolveReq (beforeLastColon data)
                         (if afterLastColon data = "allow".toList then Decision.allow
                          else Decision.deny userDeniedMsg)] = 0 := by
                    simp [isResolveFor, hne]
                  rw [h1]
                  omega
            · rw [brokerStep_callback_other s data hp]
              show List.countP (isResolveFor id) []
                  + (if lookupReq s id = none then 0 else 1)
                ≤ (if lookupReq s id = none then 0 else 1)
                  + (if isRegisterFor id (.callback data) then 1 else 0)
              simp only [List.countP_nil, Nat.zero_add]
              omega
      omega

/-- C3: for every pending permission request the resolve callback runs at
most once along any valid event sequence with a fresh correlation id (and
exactly once when a timer fire or matching callback occurs, since each such
step emits one resolution); a front-end decision that finds the live entry
removes it (cancelling the timer, so no timed-out notification for that id
can ever be emitted once a decision resolution happened); expiry removes
the entry and resolves it as a denial with the timed-out message; and a
resolution attempt whose correlation id has no live entry invokes no
callback and only reports the request as expired. -/
theorem c3_permission_single_resolution :
    (∀ (s₀ : BrokerState) (es : List BrokerEvent) (id : Str),
       ValidSeq s₀ es → lookupReq s₀ id = none →
       es.countP (isRegisterFor id) ≤ 1 →
       (brokerRun s₀ es).2.countP (isResolveFor id) ≤ 1 ∧
       (1 ≤ (brokerRun s₀ es).2.countP (isDecisionResolveFor id) →
         (brokerRun s₀ es).2.countP (isTimedOutEditFor id) = 0)) ∧
    (∀ (s : BrokerState) (id : Str) (e0 : PendingRequest),
       lookupReq s id = some e0 →
       brokerStep s (.timerFire id)
         = (removeReq s id,
            [.editTimedOut id e0.chatId e0.messageId,
             .resolveReq id (.deny timeoutMsg)]) ∧
       lookupReq (brokerStep s (.timerFire id)).1 id = none) ∧
    (∀ (s : BrokerState) (data : Str),
       ("perm:".toList).isPrefixOf data = true →
       lookupReq s (beforeLastColon data) = none →
       brokerStep s (.callback data) = (s, [.answerExpired])) ∧
    (∀ (s : BrokerState) (data : Str) (pending : PendingRequest),
       ("perm:".toList).isPrefixOf data = true →
       lookupReq s (beforeLastColon data) = some pending →
       lookupReq (brokerStep s (.callback data)).1 (beforeLastColon data) = none ∧
       (brokerStep s (.callback data)).2.countP
           (isResolveFor (beforeLastColon data)) = 1 ∧
       (brokerStep s (.callback data)).2.countP
           (isTimedOutEditFor (beforeLastColon data)) = 0) := by
  refine ⟨?_, ?_, ?_, ?_⟩
  · intro s₀ es id _ h0 hreg
    have hbound := brokerRun_resolve_bound id es s₀
    rw [h0] at hbound
    simp at hbound
    have hle : (brokerRun s₀ es).2.countP (isResolveFor id) ≤ 1 := by omega
    refine ⟨hle, ?_⟩
    intro hdec
    have hsplit := countP_resolve_split id (brokerRun s₀ es).2
    have hedit := brokerRun_edit_eq_timeout id es s₀
    omega
  · intro s id e0 h
    refine ⟨brokerStep_timerFire_live s id e0 h, ?_⟩
    rw [brokerStep_timerFire_live s id e0 h]
    exact lookupReq_removeReq_self s id
  · intro s data hp h
    exact brokerStep_callback_miss s data hp h
  · intro s data pending hp h
    rw [brokerStep_callback_hit s data pending hp h]
    refine ⟨lookupReq_removeReq_self s (beforeLastColon data), ?_, ?_⟩
    · simp [isResolveFor]
    · simp [isTimedOutEditFor]

/-- C3, witness: a concrete trace registering one permission request and
resolving it through the front end, with a second stale resolution
attempt; and concrete states for the expiry and stale-resolution step
facts. -/
theorem c3_witness :
    ((brokerRun [] [BrokerEvent.register "perm:x".toList 5 9,
        .callback "perm:x:allow".toList,
        .callback "perm:x:allow".toList]).2.countP
          (isResolveFor "perm:x".toList) ≤ 1 ∧
      (1 ≤ (brokerRun [] [BrokerEvent.register "perm:x".toList 5 9,
          .callback "perm:x:allow".toList,
          .callback "perm:x:allow".toList]).2.countP
            (isDecisionResolveFor "perm:x".toList) →
        (brokerRun [] [BrokerEvent.register "perm:x".toList 5 9,
          .callback "perm:x:allow".toList,
          .callback "perm:x:allow".toList]).2.countP
            (isTimedOutEditFor "perm:x".toList) = 0)) ∧
    (brokerStep [("perm:x".toList, ⟨5, 9⟩)] (.timerFire "perm:x".toList)
        = (removeReq [("perm:x".toList, ⟨5, 9⟩)] "perm:x".toList,
           [.editTimedOut "perm:x".toList 5 9,
            .resolveReq "perm:x".toList (.deny timeoutMsg)]) ∧
      lookupReq (brokerStep [("perm:x".toList, ⟨5, 9⟩)]
          (.timerFire "perm:x".toList)).1 "perm:x".toList = none) ∧
    brokerStep [] (.callback "perm:x:allow".toList) = ([], [.answerExpired]) ∧
    (lookupReq (brokerStep [("perm:x".toList, ⟨5, 9⟩)]
          (.callback "perm:x:allow".toList)).1
        (beforeLastColon "perm:x:allow".toList) = none ∧
      (brokerStep [("perm:x".toList, ⟨5, 9⟩)]
          (.callback "perm:x:allow".toList)).2.countP
        (isResolveFor (beforeLastColon "perm:x:allow".toList)) = 1 ∧
      (brokerStep [("perm:x".toList, ⟨5, 9⟩)]
          (.callback "perm:x:allow".toList)).2.countP
        (isTimedOutEditFor (beforeLastColon "perm:x:allow".toList)) = 0) := by
  refine ⟨?_, ?_, ?_, ?_⟩
  · exact (c3_permission_single_resolution).1 []
      [BrokerEvent.register "perm:x".toList 5 9,
       .callback "perm:x:allow".toList, .callback "perm:x:allow".toList]
      "perm:x".toList
      (ValidSeq.cons rfl (ValidSeq.cons trivial (ValidSeq.cons trivial (ValidSeq.nil _))))
      rfl (by decide)
  · exact (c3_permission_single_resolution).2.1 [("perm:x".toList, ⟨5, 9⟩)]
      "perm:x".toList ⟨5, 9⟩ rfl
  · exact (c3_permission_single_resolution).2.2.1 [] "perm:x:allow".toList
      (by decide) (by decide)
  · exact (c3_permission_single_resolution).2.2.2 [("perm:x".toList, ⟨5, 9⟩)]
      "perm:x:allow".toList ⟨5, 9⟩ (by decide) (by decide)

-- Job supervisor lemmas.

lemma appendLimited_le (e c : Str) (L : Nat) : (appendLimited e c L).length ≤ L := by
  simp only [appendLimited]
  split
  · next h => exact h
  · rw [List.length_drop]
    omega

lemma appendLimited_suffix (e c : Str) (L : Nat) : appendLimited e c L <:+ e ++ c := by
  simp only [appendLimited]
  split
  · exact List.suffix_rfl
  · exact List.drop_suffix _ _

lemma suffix_append_right {s t : Str} (u : Str) (h : s <:+ t) : s ++ u <:+ t ++ u := by
  obtain ⟨w, hw⟩ := h
  exact ⟨w, by rw [← List.append_assoc, hw]⟩

lemma applyUpdates_appendUpd_bound : ∀ (chunks : List Str) (j : Job),
    j.output.length ≤ OUTPUT_LIMIT →
    (applyUpdates j (chunks.map appendUpd)).output.length ≤ OUTPUT_LIMIT := by
  intro chunks
  induction chunks with
  | nil => intro j h; exact h
  | cons c cs ih =>
      intro j _
      simpa [applyUpdates, List.foldl_cons] using
        ih (appendUpd c j) (appendLimited_le j.output c OUTPUT_LIMIT)

lemma applyUpdates_appendUpd_suffix : ∀ (chunks : List Str) (j : Job),
    (applyUpdates j (chunks.map appendUpd)).output <:+ j.output ++ chunks.flatten := by
  intro chunks
  induction chunks with
  | nil => intro j; simp [applyUpdates]
  | cons c cs ih =>
      intro j
      have h1 : (applyUpdates (appendUpd c j) (cs.map appendUpd)).output
          <:+ (appendUpd c j).output ++ cs.flatten := ih (appendUpd c j)
      have h2 : (appendUpd c j).output ++ cs.flatten
          <:+ (j.output ++ c) ++ cs.flatten :=
        suffix_append_right cs.flatten (appendLimited_suffix j.output c OUTPUT_LIMIT)
      have h3 := h1.trans h2
      simpa [applyUpdates, List.foldl_cons, List.append_assoc] using h3

lemma updateJobList_spec : ∀ (jobs : List Job) (id : Str) (f : Job → Job) (t : Job),
    (∀ j, (f j).id = j.id) →
    findJob jobs id = some t →
    (updateJobList jobs id f).2 = some (f t) ∧
    findJob (updateJobList jobs id f).1 id = some (f t) := by
  intro jobs id f t hid
  induction jobs with
  | nil => intro h; simp [findJob] at h
  | cons j rest ih =>
      intro h
      by_cases hne : j.id = id
      · have hp : (fun jj : Job => (jj.id = id : Bool)) j = true := by simpa using hne
        rw [findJob, List.find?_cons_of_pos rest hp] at h
        obtain rfl : j = t := by simpa using h
        constructor
        · simp [updateJobList, hne]
        · have hp2 : (fun jj : Job => (jj.id = id : Bool)) (f j) = true := by
            simp [hid j, hne]
          simp only [updateJobList, if_pos hne, findJob]
          rw [List.find?_cons_of_pos rest hp2]
      · have hp : ¬ ((fun jj : Job => (jj.id = id : Bool)) j = true) := by simpa using hne
        rw [findJob, List.find?_cons_of_neg rest hp] at h
        obtain ⟨h1, h2⟩ := ih h
        rcases hu : updateJobList rest id f with ⟨rest', r⟩
        rw [hu] at h1 h2
        simp only at h1 h2
        constructor
        · simp [updateJobList, hne, hu, h1]
        · simp only [updateJobList, if_neg hne, hu]
          simp only [findJob] at h2 ⊢
          rw [List.find?_cons_of_neg rest' hp]
          exact h2


lemma killUpd_id (ts : Str) (j : Job) : (killUpd ts j).id = j.id := rfl

lemma exitUpd_id (ec : Int) (ts : Str) (j : Job) : (exitUpd ec ts j).id = j.id := rfl

lemma updater_preserves_nonrunning {u : Job → Job} (hu : IsJobUpdater u) (j : Job)
    (h : j.status ≠ .running) : (u j).status ≠ .running := by
  rcases hu with ⟨c, rfl⟩ | ⟨ts, rfl⟩ | ⟨ec, ts, rfl⟩
  · exact h
  · simp [killUpd]
  · simp only [exitUpd]
    split
    · simp
    · split <;> simp

lemma leaveRunningCount_zero : ∀ (us : List (Job → Job)) (j : Job),
    (∀ u ∈ us, IsJobUpdater u) → j.status ≠ .running →
    leaveRunningCount j us = 0 := by
  intro us
  induction us with
  | nil => intro j _ _; rfl
  | cons u rest ih =>
      intro j hall h
      simp only [leaveRunningCount]
      rw [if_neg (by exact fun hc => h hc.1)]
      rw [ih (u j) (fun v hv => hall v (List.mem_cons_of_mem _ hv))
        (updater_preserves_nonrunning (hall u (List.mem_cons_self _ _)) j h)]

lemma leaveRunningCount_le_one : ∀ (us : List (Job → Job)) (j : Job),
    (∀ u ∈ us, IsJobUpdater u) → leaveRunningCount j us ≤ 1 := by
  intro us
  induction us with
  | nil => intro j _; simp [leaveRunningCount]
  | cons u rest ih =>
      intro j hall
      simp only [leaveRunningCount]
      by_cases hc : j.status = .running ∧ (u j).status ≠ .running
      · rw [if_pos hc]
        rw [leaveRunningCount_zero rest (u j)
          (fun v hv => hall v (List.mem_cons_of_mem _ hv)) hc.2]
      · rw [if_neg hc]
        simpa using ih (u j) (fun v hv => hall v (List.mem_cons_of_mem _ hv))

-- Claim theorems for the job supervisor.

lemma appendLimited_replicate (n L : Nat) (c : Char) (h : ¬ n ≤ L) :
    appendLimited [] (List.replicate n c) L = List.replicate (n - (n - L)) c := by
  simp only [appendLimited, List.nil_append, List.length_replicate]
  rw [if_neg h, List.drop_replicate]

/-- C4: for every spawned job and every sequence of output chunks, the
stored output never exceeds the 3000-character ceiling and is a suffix of
the concatenation of all chunks (truncation keeps the most recent
content); in particular a job whose process writes 5000 A characters and
exits with code 0 ends with output equal to the last 3000 characters,
status done and exit code 0. -/
theorem c4_output_bound :
    (∀ (id : Str) (agent : AgentName) (task workdir chatId : Str) (pid : Int)
       (ts : Str) (chunks : List Str),
       (applyUpdates (spawnBaseJob id agent task workdir chatId pid ts)
           (chunks.map appendUpd)).output.length ≤ OUTPUT_LIMIT ∧
       (applyUpdates (spawnBaseJob id agent task workdir chatId pid ts)
           (chunks.map appendUpd)).output <:+ chunks.flatten) ∧
    ((exitUpd 0 "t1".toList (appendUpd (List.replicate 5000 'A')
        (spawnBaseJob "job1".toList .claude "task".toList "wd".toList "chat".toList 7
          "t0".toList))).output = List.replicate 3000 'A' ∧
     (exitUpd 0 "t1".toList (appendUpd (List.replicate 5000 'A')
        (spawnBaseJob "job1".toList .claude "task".toList "wd".toList "chat".toList 7
          "t0".toList))).status = .done ∧
     (exitUpd 0 "t1".toList (appendUpd (List.replicate 5000 'A')
        (spawnBaseJob "job1".toList .claude "task".toList "wd".toList "chat".toList 7
          "t0".toList))).exitCode = some 0) := by
  constructor
  · intro id agent task workdir chatId pid ts chunks
    constructor
    · exact applyUpdates_appendUpd_bound chunks _ (by simp [spawnBaseJob, OUTPUT_LIMIT])
    · have := applyUpdates_appendUpd_suffix chunks
        (spawnBaseJob id agent task workdir chatId pid ts)
      simpa [spawnBaseJob] using this
  · have h1 : appendLimited [] (List.replicate 5000 'A') OUTPUT_LIMIT
        = List.replicate 3000 'A' := by
      rw [show OUTPUT_LIMIT = 3000 from rfl]
      rw [appendLimited_replicate 5000 3000 'A' (by norm_num)]
    have e1 : ∀ (ts : Str) (j : Job), (exitUpd 0 ts j).status = JobStatus.done := by
      intro ts j; simp [exitUpd]
    have e2 : ∀ (ts : Str) (j : Job), (exitUpd 0 ts j).output = j.output := fun _ _ => rfl
    have e3 : ∀ (ec : Int) (ts : Str) (j : Job), (exitUpd ec ts j).exitCode = some ec :=
      fun _ _ _ => rfl
    have e4 : ∀ (c : Str) (j : Job),
        (appendUpd c j).output = appendLimited j.output c OUTPUT_LIMIT := fun _ _ => rfl
    refine ⟨?_, e1 _ _, e3 _ _ _⟩
    rw [e2, e4]
    rw [show (spawnBaseJob "job1".toList .claude "task".toList "wd".toList "chat".toList 7
        "t0".toList).output = [] from rfl]
    exact h1

/-- C5: a job status moves out of running at most once over any sequence of
the supervisor updaters; killJob on a job that is not running returns the
store and job unchanged, so a second kill is an idempotent no-op and a
done or failed terminal status is never reverted by the kill entry check;
a process id that no longer exists (ESRCH from the signal) is tolerated
and the record is still marked killed; and when a kill was requested on a
running job, both orders of the kill write and the exit-handler write for
a non-zero exit code leave the persisted status killed. -/
theorem c5_job_status_transitions :
    (∀ (sig : Int → SigOutcome) (ts : Str) (jobs : List Job) (id : Str) (t : Job),
       findJob jobs id = some t → t.status ≠ .running →
       killJob sig ts jobs id = .ok (jobs, some t)) ∧
    (∀ (sig sig2 : Int → SigOutcome) (ts ts2 : Str) (jobs : List Job) (id : Str)
       (t : Job) (jobs' : List Job) (k : Job),
       findJob jobs id = some t → t.status = .running →
       killJob sig ts jobs id = .ok (jobs', some k) →
       k.status = .killed ∧ killJob sig2 ts2 jobs' id = .ok (jobs', some k)) ∧
    (∀ (sig : Int → SigOutcome) (ts : Str) (jobs : List Job) (id : Str) (t : Job)
       (p : Int),
       findJob jobs id = some t → t.status = .running → t.pid = some p →
       sig p = .thrown "ESRCH".toList →
       ∃ (jobs' : List Job) (k : Job),
         killJob sig ts jobs id = .ok (jobs', some k) ∧ k.status = .killed) ∧
    (∀ (jobs : List Job) (id : Str) (t : Job) (ts1 ts2 : Str) (ec : Int),
       findJob jobs id = some t → t.status = .running → ec ≠ 0 →
       (∃ k1, findJob (updateJobList
           (updateJobList jobs id (killUpd ts1)).1 id (exitUpd ec ts2)).1 id = some k1 ∧
         k1.status = .killed) ∧
       (∃ k2, findJob (updateJobList
           (updateJobList jobs id (exitUpd ec ts2)).1 id (killUpd ts1)).1 id = some k2 ∧
         k2.status = .killed)) ∧
    (∀ (j : Job) (us : List (Job → Job)), (∀ u ∈ us, IsJobUpdater u) →
       leaveRunningCount j us ≤ 1) := by
  have hkid : ∀ (ts : Str) (j : Job), (killUpd ts j).id = j.id := fun _ _ => rfl
  have heid : ∀ (ec : Int) (ts : Str) (j : Job), (exitUpd ec ts j).id = j.id :=
    fun _ _ _ => rfl
  have hkill_run : ∀ (sig : Int → SigOutcome) (ts : Str) (jobs : List Job) (id : Str)
      (t : Job), findJob jobs id = some t → t.status = .running →
      killJob sig ts jobs id = .ok (updateJobList jobs id (killUpd ts)) ∨
      ∃ code, killJob sig ts jobs id = .error code := by
    intro sig ts jobs id t hfind hst
    rcases hp : t.pid with _ | p
    · left
      simp only [killJob, hfind, hp]
      rw [if_neg (by simp [hst])]
    · rcases hs : sig p with _ | code
      · left
        simp only [killJob, hfind, hp, hs]
        rw [if_neg (by simp [hst])]
      · by_cases hc : code = "ESRCH".toList
        · left
          simp only [killJob, hfind, hp, hs]
          rw [if_neg (by simp [hst]), if_pos hc]
        · right
          refine ⟨code, ?_⟩
          simp only [killJob, hfind, hp, hs]
          rw [if_neg (by simp [hst]), if_neg hc]
  refine ⟨?_, ?_, ?_, ?_, ?_⟩
  · intro sig ts jobs id t hfind hst
    simp only [killJob, hfind]
    rw [if_pos hst]
  · intro sig sig2 ts ts2 jobs id t jobs' k hfind hst hkill
    have hspec := updateJobList_spec jobs id (killUpd ts) t (hkid ts) hfind
    rcases hkill_run sig ts jobs id t hfind hst with hok | ⟨code, herr⟩
    · rw [hok] at hkill
      have hpair : updateJobList jobs id (killUpd ts) = (jobs', some k) := by
        simpa using hkill
      rw [hpair] at hspec
      simp only at hspec
      obtain ⟨h1, h2⟩ := hspec
      obtain rfl : k = killUpd ts t := by simpa using h1
      refine ⟨rfl, ?_⟩
      simp only [killJob, h2]
      rw [if_pos (by simp [killUpd])]
    · rw [herr] at hkill
      exact absurd hkill (by simp)
  · intro sig ts jobs id t p hfind hst hp hsig
    have hspec := updateJobList_spec jobs id (killUpd ts) t (hkid ts) hfind
    refine ⟨(updateJobList jobs id (killUpd ts)).1, killUpd ts t, ?_, rfl⟩
    have hok : killJob sig ts jobs id = .ok (updateJobList jobs id (killUpd ts)) := by
      simp only [killJob, hfind]
      rw [if_neg (by simp [hst])]
      simp only [hp, hsig]
      simp
    rw [hok]
    have : updateJobList jobs id (killUpd ts)
        = ((updateJobList jobs id (killUpd ts)).1, some (killUpd ts t)) := by
      conv_lhs => rw [show updateJobList jobs id (killUpd ts)
        = ((updateJobList jobs id (killUpd ts)).1,
           (updateJobList jobs id (killUpd ts)).2) from rfl]
      rw [hspec.1]
    rw [this]
  · intro jobs id t ts1 ts2 ec hfind hst hec
    have hs1 := updateJobList_spec jobs id (killUpd ts1) t (hkid ts1) hfind
    have hs2 := updateJobList_spec (updateJobList jobs id (killUpd ts1)).1 id
      (exitUpd ec ts2) (killUpd ts1 t) (heid ec ts2) hs1.2
    have hs3 := updateJobList_spec jobs id (exitUpd ec ts2) t (heid ec ts2) hfind
    have hs4 := updateJobList_spec (updateJobList jobs id (exitUpd ec ts2)).1 id
      (killUpd ts1) (exitUpd ec ts2 t) (hkid ts1) hs3.2
    constructor
    · refine ⟨exitUpd ec ts2 (killUpd ts1 t), hs2.2, ?_⟩
      simp only [exitUpd, killUpd]
      rw [if_neg hec]
      rfl
    · exact ⟨killUpd ts1 (exitUpd ec ts2 t), hs4.2, rfl⟩
  · intro j us hall
    exact leaveRunningCount_le_one us j hall

/-- C5, witness: a concrete one-job store with a running job and an ESRCH
signal outcome, exercising the no-op path on a terminal job, the
idempotent second kill, the tolerated missing process, both orders of the
racing writes, and the transition bound. -/
theorem c5_witness :
    (killJob (fun _ => SigOutcome.thrown "ESRCH".toList) "t2".toList
        [exitUpd 0 "t1".toList
          (spawnBaseJob "a".toList .claude "t".toList "w".toList "c".toList 7
            "t0".toList)] "a".toList
      = .ok ([exitUpd 0 "t1".toList
          (spawnBaseJob "a".toList .claude "t".toList "w".toList "c".toList 7
            "t0".toList)],
         some (exitUpd 0 "t1".toList
          (spawnBaseJob "a".toList .claude "t".toList "w".toList "c".toList 7
            "t0".toList)))) ∧
    ((killUpd "t1".toList
        (spawnBaseJob "a".toList .claude "t".toList "w".toList "c".toList 7
          "t0".toList)).status = .killed ∧
      killJob (fun _ => SigOutcome.thrown "ESRCH".toList) "t3".toList
        [killUpd "t1".toList
          (spawnBaseJob "a".toList .claude "t".toList "w".toList "c".toList 7
            "t0".toList)] "a".toList
      = .ok ([killUpd "t1".toList
          (spawnBaseJob "a".toList .claude "t".toList "w".toList "c".toList 7
            "t0".toList)],
         some (killUpd "t1".toList
          (spawnBaseJob "a".toList .claude "t".toList "w".toList "c".toList 7
            "t0".toList)))) ∧
    (∃ (jobs' : List Job) (k : Job),
       killJob (fun _ => SigOutcome.thrown "ESRCH".toList) "t1".toList
         [spawnBaseJob "a".toList .claude "t".toList "w".toList "c".toList 7
           "t0".toList] "a".toList
         = .ok (jobs', some k) ∧ k.status = .killed) ∧
    ((∃ k1, findJob (updateJobList
         (updateJobList
           [spawnBaseJob "a".toList .claude "t".toList "w".toList "c".toList 7
             "t0".toList] "a".toList (killUpd "t1".toList)).1 "a".toList
         (exitUpd 1 "t2".toList)).1 "a".toList = some k1 ∧ k1.status = .killed) ∧
     (∃ k2, findJob (updateJobList
         (updateJobList
           [spawnBaseJob "a".toList .claude "t".toList "w".toList "c".toList 7
             "t0".toList] "a".toList (exitUpd 1 "t2".toList)).1 "a".toList
         (killUpd "t1".toList)).1 "a".toList = some k2 ∧ k2.status = .killed)) ∧
    leaveRunningCount
      (spawnBaseJob "a".toList .claude "t".toList "w".toList "c".toList 7 "t0".toList)
      [killUpd "t1".toList, exitUpd 1 "t2".toList] ≤ 1 := by
  refine ⟨?_, ?_, ?_, ?_, ?_⟩
  · exact c5_job_status_transitions.1 (fun _ => SigOutcome.thrown "ESRCH".toList)
      "t2".toList _ "a".toList _ rfl (by decide)
  · exact c5_job_status_transitions.2.1 (fun _ => SigOutcome.thrown "ESRCH".toList)
      (fun _ => SigOutcome.thrown "ESRCH".toList) "t1".toList "t3".toList
      [spawnBaseJob "a".toList .claude "t".toList "w".toList "c".toList 7 "t0".toList]
      "a".toList _ _ _ rfl rfl rfl
  · exact c5_job_status_transitions.2.2.1 (fun _ => SigOutcome.thrown "ESRCH".toList)
      "t1".toList
      [spawnBaseJob "a".toList .claude "t".toList "w".toList "c".toList 7 "t0".toList]
      "a".toList _ 7 rfl rfl rfl rfl
  · exact c5_job_status_transitions.2.2.2.1
      [spawnBaseJob "a".toList .claude "t".toList "w".toList "c".toList 7 "t0".toList]
      "a".toList _ "t1".toList "t2".toList 1 rfl rfl (by decide)
  · exact c5_job_status_transitions.2.2.2.2
      (spawnBaseJob "a".toList .claude "t".toList "w".toList "c".toList 7 "t0".toList)
      [killUpd "t1".toList, exitUpd 1 "t2".toList]
      (by
        intro u hu
        simp only [List.mem_cons, List.not_mem_nil, or_false] at hu
        rcases hu with rfl | rfl
        · exact Or.inr (Or.inl ⟨"t1".toList, rfl⟩)
        · exact Or.inr (Or.inr ⟨1, "t2".toList, rfl⟩))

-- Session store and registry loader lemmas.

lemma decode_encode_message (m : SessionMessage) :
    decodeSessionMessage (encodeSessionMessage m) = some m := by
  rcases m with ⟨r, c, t⟩
  cases r <;> rfl

lemma filterMap_decode_map_encode (l : List SessionMessage) :
    (l.map encodeSessionMessage).filterMap decodeSessionMessage = l := by
  induction l with
  | nil => rfl
  | cons m rest ih => simp [List.filterMap_cons, decode_encode_message m, ih]

lemma filterMap_decode_encode_comp (l : List SessionMessage) :
    l.filterMap (fun m => decodeSessionMessage (encodeSessionMessage m)) = l := by
  induction l with
  | nil => rfl
  | cons m rest ih => simp [List.filterMap_cons, decode_encode_message m, ih]

-- Claim theorems for the persisted stores.

/-- C7, counterexample: a session file or jobs file whose content does not
parse as JSON makes the load rethrow the parse failure instead of
returning well-formed records, so loading can fail for some file
contents. -/
theorem c7_counterexample :
    loadSessionFs (fun _ => FileState.invalidText) 0 = .error .parseFailure ∧
    loadJobsFrom FileState.invalidText = .error .parseFailure := ⟨rfl, rfl⟩

/-- C7, amended: loading never fails for a missing file or for any file
content that parses as JSON: unknown, partial or legacy JSON records are
dropped or adapted (a legacy plain-array conversation file is adapted, a
jobs array keeps exactly its well-formed records, a missing file yields
the empty store); only file contents that fail JSON.parse, or an I/O
error other than ENOENT, make the load throw. -/
theorem c7_load_tolerance :
    (∀ (fs : Fs) (chatId : Int),
       fs chatId ≠ .invalidText → (∀ c, fs chatId ≠ .faulty c) →
       ∃ d, loadSessionFs fs chatId = .ok d) ∧
    (∀ f : FileState, f ≠ .invalidText → (∀ c, f ≠ .faulty c) →
       ∃ js, loadJobsFrom f = .ok js) ∧
    (∀ (fs : Fs) (chatId : Int) (items : List Json),
       fs chatId = .storedJson (.arr items) →
       loadSessionFs fs chatId
         = .ok { sdkSessionId := none, messages := items.filterMap decodeSessionMessage }) ∧
    (∀ items : List Json,
       loadJobsFrom (.storedJson (.arr items)) = .ok (items.filterMap decodeJob)) ∧
    (loadSessionFs (fun _ => FileState.absent) 0
       = .ok { sdkSessionId := none, messages := [] } ∧
     loadJobsFrom .absent = .ok []) := by
  refine ⟨?_, ?_, ?_, fun items => rfl, rfl, rfl⟩
  · intro fs chatId h1 h2
    rcases h : fs chatId with _ | _ | j | c
    · exact ⟨{ sdkSessionId := none, messages := [] }, by simp [loadSessionFs, h]⟩
    · exact absurd h h1
    · exact ⟨sessionFromJson j, by simp [loadSessionFs, h]⟩
    · exact absurd h (h2 c)
  · intro f h1 h2
    rcases f with _ | _ | j | c
    · exact ⟨[], rfl⟩
    · exact absurd rfl h1
    · rcases j with _ | b | n | s | items | fields
      · exact ⟨[], rfl⟩
      · exact ⟨[], rfl⟩
      · exact ⟨[], rfl⟩
      · exact ⟨[], rfl⟩
      · exact ⟨items.filterMap decodeJob, rfl⟩
      · exact ⟨[], rfl⟩
    · exact absurd rfl (h2 c)
  · intro fs chatId items h
    simp [loadSessionFs, h, sessionFromJson]

/-- C7, witness: the amended theorem applied to a stored empty JSON array
for both stores. -/
theorem c7_witness :
    (∃ d, loadSessionFs (fun _ => FileState.storedJson (Json.arr [])) 0 = .ok d) ∧
    (∃ js, loadJobsFrom (FileState.storedJson (Json.arr [])) = .ok js) ∧
    loadSessionFs (fun _ => FileState.storedJson (Json.arr [])) 0
      = .ok { sdkSessionId := none, messages := [] } := by
  refine ⟨?_, ?_, ?_⟩
  · exact c7_load_tolerance.1 (fun _ => FileState.storedJson (Json.arr [])) 0
      (fun h => FileState.noConfusion h) (fun c h => FileState.noConfusion h)
  · exact c7_load_tolerance.2.1 (FileState.storedJson (Json.arr []))
      (fun h => FileState.noConfusion h) (fun c h => FileState.noConfusion h)
  · exact c7_load_tolerance.2.2.1 (fun _ => FileState.storedJson (Json.arr [])) 0 [] rfl

/-- C8: saving a session record and loading it back yields the identical
record: the same message sequence in the same order and the same
continuation handle, for every well-formed record (well-formedness is
enforced by the SessionData type). -/
theorem c8_session_roundtrip (fs : Fs) (chatId : Int) (d : SessionData) :
    loadSessionFs (saveSessionFs fs chatId d) chatId = .ok d := by
  have hfile : saveSessionFs fs chatId d chatId = .storedJson (encodeSessionData d) := by
    simp [saveSessionFs]
  have hjson : sessionFromJson (encodeSessionData d) = d := by
    rcases d with ⟨sid, msgs⟩
    rcases sid with _ | s
    · have l1 : lookupField
          [("messages".toList, Json.arr (msgs.map encodeSessionMessage))]
          "sdkSessionId".toList = none := rfl
      have l2 : lookupField
          [("messages".toList, Json.arr (msgs.map encodeSessionMessage))]
          "messages".toList
          = some (Json.arr (msgs.map encodeSessionMessage)) := rfl
      simp only [encodeSessionData, sessionFromJson, List.nil_append, l1, l2]
      simp only [SessionData.mk.injEq, List.filterMap_map, Function.comp]
      exact ⟨trivial, filterMap_decode_encode_comp msgs⟩
    · have l1 : lookupField
          [("sdkSessionId".toList, Json.str s),
           ("messages".toList, Json.arr (msgs.map encodeSessionMessage))]
          "sdkSessionId".toList = some (Json.str s) := rfl
      have l2 : lookupField
          [("sdkSessionId".toList, Json.str s),
           ("messages".toList, Json.arr (msgs.map encodeSessionMessage))]
          "messages".toList
          = some (Json.arr (msgs.map encodeSessionMessage)) := rfl
      simp only [encodeSessionData, sessionFromJson, List.cons_append, List.nil_append,
        l1, l2]
      simp only [SessionData.mk.injEq, List.filterMap_map, Function.comp]
      exact ⟨trivial, filterMap_decode_encode_comp msgs⟩
  simp [loadSessionFs, hfile, hjson]

/-- C10: clearSession succeeds whether or not a stored record exists (a
missing file is tolerated), any filesystem error other than ENOENT
propagates, clearing twice equals clearing once, and loading immediately
after a successful clear yields an empty history with no continuation
handle. -/
theorem c10_clear_session :
    (∀ (fs : Fs) (chatId : Int), (∀ c, fs chatId ≠ .faulty c) →
       ∃ fs', clearSessionFs fs chatId = .ok fs') ∧
    (∀ (fs : Fs) (chatId : Int) (c : Str), c ≠ "ENOENT".toList →
       fs chatId = .faulty c → clearSessionFs fs chatId = .error (.ioErr c)) ∧
    (∀ (fs fs' : Fs) (chatId : Int), clearSessionFs fs chatId = .ok fs' →
       clearSessionFs fs' chatId = .ok fs') ∧
    (∀ (fs fs' : Fs) (chatId : Int), clearSessionFs fs chatId = .ok fs' →
       loadSessionFs fs' chatId = .ok { sdkSessionId := none, messages := [] }) := by
  refine ⟨?_, ?_, ?_, ?_⟩
  · intro fs chatId hnf
    rcases h : fs chatId with _ | _ | j | c
    · exact ⟨fs, by simp [clearSessionFs, h]⟩
    · exact ⟨fun c => if c = chatId then FileState.absent else fs c,
        by simp [clearSessionFs, h]⟩
    · exact ⟨fun c => if c = chatId then FileState.absent else fs c,
        by simp [clearSessionFs, h]⟩
    · exact absurd h (hnf c)
  · intro fs chatId c hc h
    simp only [clearSessionFs, h]
    rw [if_neg hc]
  · intro fs fs' chatId hclear
    rcases h : fs chatId with _ | _ | j | c
    · simp only [clearSessionFs, h] at hclear
      obtain rfl : fs = fs' := by simpa using hclear
      simp [clearSessionFs, h]
    · simp only [clearSessionFs, h] at hclear
      obtain rfl : (fun c => if c = chatId then FileState.absent else fs c) = fs' := by
        simpa using hclear
      simp [clearSessionFs]
    · simp only [clearSessionFs, h] at hclear
      obtain rfl : (fun c => if c = chatId then FileState.absent else fs c) = fs' := by
        simpa using hclear
      simp [clearSessionFs]
    · simp only [clearSessionFs, h] at hclear
      by_cases hc : c = "ENOENT".toList
      · rw [if_pos hc] at hclear
        obtain rfl : fs = fs' := by simpa using hclear
        simp [clearSessionFs, h, hc]
      · rw [if_neg hc] at hclear
        exact absurd hclear (by simp)
  · intro fs fs' chatId hclear
    rcases h : fs chatId with _ | _ | j | c
    · simp only [clearSessionFs, h] at hclear
      obtain rfl : fs = fs' := by simpa using hclear
      simp [loadSessionFs, h]
    · simp only [clearSessionFs, h] at hclear
      obtain rfl : (fun c => if c = chatId then FileState.absent else fs c) = fs' := by
        simpa using hclear
      simp [loadSessionFs]
    · simp only [clearSessionFs, h] at hclear
      obtain rfl : (fun c => if c = chatId then FileState.absent else fs c) = fs' := by
        simpa using hclear
      simp [loadSessionFs]
    · simp only [clearSessionFs, h] at hclear
      by_cases hc : c = "ENOENT".toList
      · rw [if_pos hc] at hclear
        obtain rfl : fs = fs' := by simpa using hclear
        simp [loadSessionFs, h, hc]
      · rw [if_neg hc] at hclear
        exact absurd hclear (by simp)

/-- C10, witness: the theorem applied to a chat with no stored record and
to a chat whose file is inaccessible with an EACCES error. -/
theorem c10_witness :
    (∃ fs', clearSessionFs (fun _ => FileState.absent) 0 = .ok fs') ∧
    clearSessionFs (fun _ => FileState.faulty "EACCES".toList) 0
      = .error (.ioErr "EACCES".toList) ∧
    clearSessionFs (fun _ => FileState.absent) 0 = .ok (fun _ => FileState.absent) ∧
    loadSessionFs (fun _ => FileState.absent) 0
      = .ok { sdkSessionId := none, messages := [] } := by
  refine ⟨?_, ?_, ?_, ?_⟩
  · exact c10_clear_session.1 (fun _ => FileState.absent) 0
      (fun c h => FileState.noConfusion h)
  · exact c10_clear_session.2.1 (fun _ => FileState.faulty "EACCES".toList) 0
      "EACCES".toList (by decide) rfl
  · exact c10_clear_session.2.2.1 (fun _ => FileState.absent)
      (fun _ => FileState.absent) 0 rfl
  · exact c10_clear_session.2.2.2 (fun _ => FileState.absent)
      (fun _ => FileState.absent) 0 rfl

end Jellyfish
